import Mathlib

/-!
Verification development for the BanditPAM k-medoids engine
(C++ sources: `src/kmedoids_ucb.cpp`, `src/algorithms/banditpam.cpp`,
`src/algorithms/fastpam1.cpp`, header `headers/algorithms/banditpam.hpp`).

The C++ arithmetic is on IEEE doubles / floats.  We shallowly embed the
numeric values as exact rationals extended with the IEEE special values
`+inf`, `-inf` and `nan` (type `F` below); rounding is not modelled, which
is the usual exact-real reading of floating-point programs.  The exact
rationals are carried as unreduced integer fractions with positive
denominator (type `Q` below), whose arithmetic the kernel evaluates; `Q`
values compare through cross-multiplication (`Q.eqb`, `Q.ltb`), and two
structurally different `Q` values may denote the same rational.  The two
transcendental ingredients (`std::sqrt` composed with `std::log` in the
confidence radius, and `arma::norm` / `arma::stddev` square roots) are
modelled by explicit function parameters (`slf`, `sq`); every theorem that
depends on their values either quantifies over them with the properties the
real functions enjoy, or is evaluated on runs whose control flow is
independent of them (all-exact runs, zero standard deviations).
-/

/-- An exact rational as an unreduced fraction `num / den`; every value
built by the development has `0 < den`. -/
structure Q where
  num : ℤ
  den : ℤ
deriving DecidableEq, Repr

namespace Q

/-- The rational denoted by a `Q` value. -/
def toRat (a : Q) : ℚ := (a.num : ℚ) / (a.den : ℚ)

def ofNat (n : ℕ) : Q := ⟨n, 1⟩

def ofInt (n : ℤ) : Q := ⟨n, 1⟩

/-- Value equality by cross-multiplication. -/
def eqb (a b : Q) : Bool := a.num * b.den = b.num * a.den

/-- Value order by cross-multiplication (the denominators are positive). -/
def ltb (a b : Q) : Bool := a.num * b.den < b.num * a.den

def leb (a b : Q) : Bool := a.num * b.den ≤ b.num * a.den

/-- Sign tests against zero (the denominator is positive). -/
def isZero (a : Q) : Bool := a.num = 0

def pos (a : Q) : Bool := 0 < a.num

def neg' (a : Q) : Bool := a.num < 0

def add (a b : Q) : Q := ⟨a.num * b.den + b.num * a.den, a.den * b.den⟩

def neg (a : Q) : Q := ⟨-a.num, a.den⟩

def sub (a b : Q) : Q := add a (neg b)

def mul (a b : Q) : Q := ⟨a.num * b.num, a.den * b.den⟩

/-- Exact division; callers guard against a zero divisor.  The sign of the
divisor's numerator moves to the numerator so the denominator stays
positive. -/
def div (a b : Q) : Q :=
  if 0 ≤ b.num then ⟨a.num * b.den, a.den * b.num⟩
  else ⟨-(a.num * b.den), a.den * (-b.num)⟩

def abs (a : Q) : Q := ⟨|a.num|, a.den⟩

end Q

/-- IEEE-style extended value: `nan`, `-∞`, `+∞` or an exact finite value. -/
inductive F where
  | nan : F
  | ninf : F
  | pinf : F
  | fin : Q → F
deriving DecidableEq, Repr

namespace F

/-- IEEE `<` on doubles: any comparison involving `nan` is false. -/
def lt : F → F → Bool
  | nan, _ => false
  | _, nan => false
  | ninf, ninf => false
  | ninf, _ => true
  | fin _, ninf => false
  | fin a, fin b => Q.ltb a b
  | fin _, pinf => true
  | pinf, _ => false

/-- IEEE negation. -/
def neg : F → F
  | nan => nan
  | ninf => pinf
  | pinf => ninf
  | fin q => fin (Q.neg q)

/-- IEEE addition (`+∞ + -∞ = nan`). -/
def add : F → F → F
  | nan, _ => nan
  | _, nan => nan
  | pinf, ninf => nan
  | pinf, _ => pinf
  | ninf, pinf => nan
  | ninf, _ => ninf
  | fin _, pinf => pinf
  | fin _, ninf => ninf
  | fin a, fin b => fin (Q.add a b)

/-- IEEE subtraction. -/
def sub (a b : F) : F := add a (neg b)

/-- IEEE multiplication (`0 * ±∞ = nan`). -/
def mul : F → F → F
  | nan, _ => nan
  | _, nan => nan
  | pinf, pinf => pinf
  | pinf, ninf => ninf
  | pinf, fin q => if Q.pos q then pinf else if Q.neg' q then ninf else nan
  | ninf, pinf => ninf
  | ninf, ninf => pinf
  | ninf, fin q => if Q.pos q then ninf else if Q.neg' q then pinf else nan
  | fin q, pinf => if Q.pos q then pinf else if Q.neg' q then ninf else nan
  | fin q, ninf => if Q.pos q then ninf else if Q.neg' q then pinf else nan
  | fin a, fin b => fin (Q.mul a b)

/-- IEEE division.  In particular `0 / 0 = nan` and `x / 0 = ±∞` for
finite nonzero `x` (the rationals carry no signed zero, so the positive
zero of C++ literals is meant). -/
def div : F → F → F
  | nan, _ => nan
  | _, nan => nan
  | pinf, pinf => nan
  | pinf, ninf => nan
  | ninf, pinf => nan
  | ninf, ninf => nan
  | pinf, fin q => if Q.neg' q then ninf else pinf
  | ninf, fin q => if Q.neg' q then pinf else ninf
  | fin _, pinf => fin (Q.ofNat 0)
  | fin _, ninf => fin (Q.ofNat 0)
  | fin a, fin b =>
      if Q.isZero b then
        (if Q.isZero a then nan else if Q.pos a then pinf else ninf)
      else fin (Q.div a b)

/-- Value identity on `F`: finite values by cross-multiplication, special
values by constructor (used in statements, not by the embedded code). -/
def same : F → F → Bool
  | nan, nan => true
  | ninf, ninf => true
  | pinf, pinf => true
  | fin a, fin b => Q.eqb a b
  | _, _ => false

/-- Division of an `F` value by a positive machine integer (batch sizes,
sample counts), as the C++ code divides accumulators by counts. -/
def divNat (a : F) (n : ℕ) : F := div a (fin (Q.ofNat n))

/-- Sum of a list of values, as a C++ accumulation loop starting at `0.0`. -/
def lsum (xs : List F) : F := xs.foldl add (fin (Q.ofNat 0))

/-- `arma::min` over the values of `f` on indices `0..len-1`: a linear scan
with the IEEE `<`, starting from `+∞`. -/
def minOver (len : ℕ) (f : ℕ → F) : F :=
  (List.range len).foldl (fun acc i => if lt (f i) acc then f i else acc) pinf

/-- `arma::index_min` over the values of `f` on indices `0..len-1`: index of
the first strict minimum under the IEEE `<` scan. -/
def idxMin (len : ℕ) (f : ℕ → F) : ℕ :=
  ((List.range len).foldl
    (fun acc i => if lt (f i) acc.2 then (i, f i) else acc) (0, pinf)).1

end F

/-- Structurally computable integer square root, fuelled (the recursion
halves the bit length, so any fuel of at least `log₄ n + 1` is exact). -/
def natSqrtAux : ℕ → ℕ → ℕ
  | 0, _ => 0
  | fuel + 1, n =>
    if n = 0 then 0
    else
      let r := 2 * natSqrtAux fuel (n / 4)
      if (r + 1) * (r + 1) ≤ n then r + 1 else r

/-- Largest `r` with `r * r ≤ n`. -/
def natSqrtLe (n : ℕ) : ℕ := natSqrtAux (n + 1) n

/-- Rational square root used to instantiate the abstract square-root
parameters on concrete inputs: exact on fractions whose numerator and
denominator are perfect squares, `0` elsewhere (only ever relied upon at
perfect squares). -/
def ratSqrt (q : Q) : Q :=
  if 0 ≤ q.num ∧ (natSqrtLe q.num.toNat) * (natSqrtLe q.num.toNat) = q.num.toNat
      ∧ (natSqrtLe q.den.toNat) * (natSqrtLe q.den.toNat) = q.den.toNat then
    ⟨natSqrtLe q.num.toNat, natSqrtLe q.den.toNat⟩
  else Q.ofNat 0

/-- `arma::stddev` (default normalisation by `n - 1`) of a sample vector,
with the real square root given by `sq`. -/
def stddevF (sq : Q → Q) (xs : List F) : F :=
  let n := xs.length
  let mu := F.divNat (F.lsum xs) n
  let v := F.divNat (F.lsum (xs.map (fun x => F.mul (F.sub x mu) (F.sub x mu)))) (n - 1)
  match v with
  | F.nan => F.nan
  | F.ninf => F.nan
  | F.pinf => F.pinf
  | F.fin q => if Q.neg' q then F.nan else F.fin (sq q)

/-- A data point (one column of the transposed data matrix). -/
abbrev Vec : Type := List Q

/-- The dataset after the `data = arma::trans(data)` step of the fit
functions: the list of its columns, column `i` being point `i`. -/
abbrev Data : Type := List Vec

/-- `data.col(i)`. -/
def Data.col (data : Data) (i : ℕ) : Vec := data.getD i ([] : List Q)

/-- `arma::dot` of two columns. -/
def dotV (x y : Vec) : Q :=
  ((List.zip x y).map (fun p => Q.mul p.1 p.2)).foldl Q.add (Q.ofNat 0)

namespace KM

/-- `KMedoids::L1`: `arma::norm(data.col(i) - data.col(j), 1)`, the sum of
absolute coordinate differences. -/
def L1 (data : Data) (i j : ℕ) : F :=
  F.fin (((List.zip (data.col i) (data.col j)).map
    (fun p => Q.abs (Q.sub p.1 p.2))).foldl Q.add (Q.ofNat 0))

/-- `KMedoids::manhattan`: `arma::accu(arma::abs(data.col(i) - data.col(j)))`;
textually distinct in the source but the same sum as `L1`. -/
def manhattan (data : Data) (i j : ℕ) : F :=
  F.fin (((List.zip (data.col i) (data.col j)).map
    (fun p => Q.abs (Q.sub p.1 p.2))).foldl Q.add (Q.ofNat 0))

/-- `KMedoids::L2`: `arma::norm(data.col(i) - data.col(j), 2)`.  The real
square root is the parameter `sq`. -/
def L2 (sq : Q → Q) (data : Data) (i j : ℕ) : F :=
  F.fin (sq (((List.zip (data.col i) (data.col j)).map
    (fun p => Q.mul (Q.sub p.1 p.2) (Q.sub p.1 p.2))).foldl Q.add (Q.ofNat 0)))

/-- `KMedoids::cos`:
`arma::dot(col i, col j) / (arma::norm(col i) * arma::norm(col j))` —
the normalized inner product itself, with no `1 −` and no guard against a
zero denominator.  `arma::norm x = sq (dot x x)`. -/
def cos (sq : Q → Q) (data : Data) (i j : ℕ) : F :=
  F.div (F.fin (dotV (data.col i) (data.col j)))
    (F.mul (F.fin (sq (dotV (data.col i) (data.col i))))
           (F.fin (sq (dotV (data.col j) (data.col j)))))

/-- The spec's sentence «cosine (1 − normalized inner product)», written
from the spec's words for comparison with the source's `cos`. -/
def cosSpec (sq : Q → Q) (data : Data) (i j : ℕ) : F :=
  F.sub (F.fin (Q.ofNat 1))
    (F.div (F.fin (dotV (data.col i) (data.col j)))
      (F.mul (F.fin (sq (dotV (data.col i) (data.col i))))
             (F.fin (sq (dotV (data.col j) (data.col j))))))

end KM

namespace BPAM

/-- Option / configuration fields of the `km::KMedoids` base object used by
`BanditPAM` (their declarations live in the repository's
`kmedoids_algorithm.hpp`, which is not among the provided sources).
Modelled from the spec: construction options table of §6 (`n_medoids`,
`max_iter`, `batch_size`, `build_confidence`, `swap_confidence`,
`use_perm`, `precision_floor`). -/
structure Prm where
  nMedoids : ℕ
  maxIter : ℕ
  batchSize : ℕ
  buildConfidence : ℕ
  swapConfidence : ℕ
  usePerm : Bool
  precision : Q
deriving DecidableEq, Repr

/-- Modelled from the spec: the default option values of §6
(`max_iter` 1000, `batch_size` 100, confidences 1000, `use_perm` true,
`precision_floor` 0.5). -/
def defaultPrm (k : ℕ) : Prm :=
  { nMedoids := k, maxIter := 1000, batchSize := 100,
    buildConfidence := 1000, swapConfidence := 1000,
    usePerm := true, precision := ⟨1, 2⟩ }

/-- The ambient run context of one `fit` call: the number of points `n`,
the pairwise loss `d i j` (`KMedoids::cachedLoss` on the transposed data —
the pivot cache is value-transparent, so it is modelled by the loss
itself), the square-root surrogate `sq` for `arma::stddev`, the
confidence-radius surrogate `slf p T` for `std::sqrt(std::log p / T)`, the
permutation drawn at fit entry, and the stream `rnd` of `arma::randperm`
results consumed when `usePerm` is false. -/
structure Ctx where
  p : Prm
  n : ℕ
  d : ℕ → ℕ → F
  sq : Q → Q
  slf : ℕ → ℕ → Q
  perm : List ℕ
  rnd : ℕ → List ℕ

/-- Sampler cursor state: `permutationIdx`, plus a counter into the `rnd`
stream standing for the successive `arma::randperm` calls. -/
structure Samp where
  permutationIdx : ℕ
  rndCtr : ℕ
deriving DecidableEq, Repr

/-- Drawing one batch of reference points, as at the head of
`BanditPAM::buildSigma` / `buildTarget` / `swapSigma` / `swapTarget`:
with `usePerm`, if `permutationIdx + size - 1 ≥ n` the cursor is reset to
`0`, then the slice `perm[idx .. idx+size-1]` is returned and the cursor
advances by `size`; otherwise the next `arma::randperm(n, size)` result is
consumed from the stream. -/
def getRefs (c : Ctx) (s : Samp) (size : ℕ) : List ℕ × Samp :=
  if c.p.usePerm then
    let idx := if c.n ≤ s.permutationIdx + size - 1 then 0 else s.permutationIdx
    ((c.perm.drop idx).take size, { s with permutationIdx := idx + size })
  else
    ((c.rnd s.rndCtr).take size, { s with rndCtr := s.rndCtr + 1 })

/-- Masked vector write `xs.cols(targets) = ...` / `xs.elem(targets) = ...`:
on the indices in `ts` the new value `f`, elsewhere the old vector `g`. -/
def upd {α : Type} (ts : List ℕ) (f g : ℕ → α) : ℕ → α :=
  fun a => if a ∈ ts then f a else g a

/-- `arma::find` on a boolean mask over `0..n-1` (ascending indices). -/
def targetsOf (n : ℕ) (mask : ℕ → Bool) : List ℕ :=
  (List.range n).filter (fun i => mask i)

/-- `arma::sum` / `arma::accu` of a 0/1 mask: the number of set entries. -/
def countTrue (n : ℕ) (mask : ℕ → Bool) : ℕ := (targetsOf n mask).length

/-- The per-point sample of the BUILD phase (`banditpam.cpp`, bodies of
`buildSigma` and `buildTarget`): the absolute cost in the first medoid
step, afterwards `min(cost, bestDistances(ref)) - bestDistances(ref)`. -/
def buildSample (c : Ctx) (bestD : ℕ → F) (useAbsolute : Bool) (i r : ℕ) : F :=
  let cost := c.d i r
  if useAbsolute then cost
  else F.sub (if F.lt cost (bestD r) then cost else bestD r) (bestD r)

/-- `BanditPAM::buildSigma`: draw one batch, return the per-arm sample
standard deviation together with the advanced sampler. -/
def buildSigma (c : Ctx) (s : Samp) (bestD : ℕ → F) (useAbsolute : Bool) :
    (ℕ → F) × Samp :=
  let (refs, s') := getRefs c s c.p.batchSize
  (fun i => stddevF c.sq (refs.map (fun r => buildSample c bestD useAbsolute i r)), s')

/-- `BanditPAM::buildTarget`: draw one batch (the whole reference set when
`exact > 0`), return the per-arm mean sample value (meaningful on the
targets the code evaluates) together with the advanced sampler. -/
def buildTarget (c : Ctx) (s : Samp) (bestD : ℕ → F) (useAbsolute : Bool)
    (exact : ℕ) : (ℕ → F) × Samp :=
  let tmpBatchSize := if 0 < exact then c.n else c.p.batchSize
  let (refs, s') := getRefs c s tmpBatchSize
  (fun i => F.divNat (F.lsum (refs.map (fun r => buildSample c bestD useAbsolute i r)))
      tmpBatchSize, s')

/-- Per-arm bandit state of one BUILD medoid step (`estimates`, `lcbs`,
`ucbs`, `sigma`, `numSamples`, `exactMask`, `candidates` of
`BanditPAM::build`) together with the sampler.  The `lcbs`/`ucbs` vectors
are declared without a fill in the source; they are modelled as
zero-initialised. -/
structure BSt where
  estimates : ℕ → F
  lcbs : ℕ → F
  ucbs : ℕ → F
  sigma : ℕ → F
  numSamples : ℕ → ℕ
  exactMask : ℕ → Bool
  candidates : ℕ → Bool
  samp : Samp

/-- The batched-sampling branch of the BUILD confidence-bound loop body
(`banditpam.cpp`, the code after the early break): draw one batch, update
the candidate arms' running means, sample counts and confidence bounds,
then re-elect `candidates = (lcbs < ucbs.min()) && (exactMask == 0)` over
all arms. -/
def buildBatchUpdate (c : Ctx) (pcf : ℕ) (bestD : ℕ → F) (useAbsolute : Bool)
    (st1 : BSt) : BSt :=
  let targets := targetsOf c.n st1.candidates
  let (res, samp2) := buildTarget c st1.samp bestD useAbsolute 0
  let newEst : ℕ → F := fun a =>
    F.div (F.add (F.mul (F.fin (Q.ofNat (st1.numSamples a))) (st1.estimates a))
                 (F.mul (res a) (F.fin (Q.ofNat c.p.batchSize))))
          (F.fin (Q.add (Q.ofNat c.p.batchSize) (Q.ofNat (st1.numSamples a))))
  let numSamples2 : ℕ → ℕ := fun a =>
    if a ∈ targets then st1.numSamples a + c.p.batchSize else st1.numSamples a
  let cbDelta : ℕ → F := fun a => F.mul (st1.sigma a) (F.fin (c.slf pcf (numSamples2 a)))
  let estimates2 := upd targets newEst st1.estimates
  let ucbs2 := upd targets (fun a => F.add (newEst a) (cbDelta a)) st1.ucbs
  let lcbs2 := upd targets (fun a => F.sub (newEst a) (cbDelta a)) st1.lcbs
  let ustar := F.minOver c.n ucbs2
  let candidates2 : ℕ → Bool := fun a => F.lt (lcbs2 a) ustar && !(st1.exactMask a)
  { st1 with
    estimates := estimates2
    numSamples := numSamples2
    ucbs := ucbs2
    lcbs := lcbs2
    candidates := candidates2
    samp := samp2 }

/-- One pass of the BUILD confidence-bound loop body (the content of
`while (arma::sum(candidates) > precision)` in `BanditPAM::build`):
exact promotion of the arms with `(numSamples + batchSize ≥ N) != exactMask`,
early break when fewer than `precision` candidates remain, otherwise the
batched update `buildBatchUpdate`.  The returned flag is false when the
`break` fires during this pass (the promotion effects persist either
way). -/
def buildPass (c : Ctx) (pcf : ℕ) (bestD : ℕ → F) (useAbsolute : Bool)
    (st : BSt) : BSt × Bool :=
  let computeExactly : ℕ → Bool :=
    fun a => (decide (c.n ≤ st.numSamples a + c.p.batchSize) != st.exactMask a)
  let exTargets := targetsOf c.n computeExactly
  let st1 :=
    if 0 < exTargets.length then
      let (res, samp') := buildTarget c st.samp bestD useAbsolute c.n
      { st with
        estimates := upd exTargets res st.estimates
        ucbs := upd exTargets res st.ucbs
        lcbs := upd exTargets res st.lcbs
        exactMask := upd exTargets (fun _ => true) st.exactMask
        numSamples := fun a => if a ∈ exTargets then st.numSamples a + c.n
          else st.numSamples a
        candidates := upd exTargets (fun _ => false) st.candidates
        samp := samp' }
    else st
  if (Q.ltb (Q.ofNat (countTrue c.n st1.candidates)) c.p.precision) then (st1, false)
  else (buildBatchUpdate c pcf bestD useAbsolute st1, true)

/-- The BUILD confidence-bound loop: repeat `buildPass` while
`sum(candidates) > precision` (fuelled; every theorem about it holds for
every fuel). -/
def buildInner (c : Ctx) (pcf : ℕ) (bestD : ℕ → F) (useAbsolute : Bool) :
    ℕ → BSt → BSt
  | 0, st => st
  | fuel + 1, st =>
    if (Q.ltb c.p.precision (Q.ofNat (countTrue c.n st.candidates))) then
      match buildPass c pcf bestD useAbsolute st with
      | (st', false) => st'
      | (st', true) => buildInner c pcf bestD useAbsolute fuel st'
    else st

/-- One iteration of the `for (k = 0; k < nMedoids; k++)` loop of
`BanditPAM::build`: reset the permutation cursor, compute `sigma`, run the
confidence-bound loop from the freshly reset arm state, append
`lcbs.index_min()` to the medoid list and fold it into `bestDistances`. -/
def buildStep (c : Ctx) (pcf fuel : ℕ) (M : List ℕ) (bestD : ℕ → F)
    (useAbsolute : Bool) (samp : Samp) : List ℕ × (ℕ → F) × BSt :=
  let samp0 : Samp := { samp with permutationIdx := 0 }
  let (sigma, samp1) := buildSigma c samp0 bestD useAbsolute
  let st0 : BSt :=
    { estimates := fun _ => F.fin (Q.ofNat 0), lcbs := fun _ => F.fin (Q.ofNat 0),
      ucbs := fun _ => F.fin (Q.ofNat 0), sigma := sigma, numSamples := fun _ => 0,
      exactMask := fun _ => false, candidates := fun _ => true, samp := samp1 }
  let st' := buildInner c pcf bestD useAbsolute fuel st0
  let m := F.idxMin c.n st'.lcbs
  let bestD' : ℕ → F := fun i =>
    let cost := c.d i m
    if F.lt cost (bestD i) then cost else bestD i
  (M ++ [m], bestD', st')

/-- `BanditPAM::build`: seed `nMedoids` medoids, the first step in absolute
mode, the following ones in reward mode. -/
def build (c : Ctx) (fuel : ℕ) (samp : Samp) : List ℕ × (ℕ → F) × Samp :=
  let pcf := c.p.buildConfidence * c.n
  (List.range c.p.nMedoids).foldl
    (fun acc k =>
      let (M, bestD, samp) := acc
      let (M', bestD', st') := buildStep c pcf fuel M bestD (k = 0) samp
      (M', bestD', st'.samp))
    (([] : List ℕ), fun _ => F.pinf, samp)

/-- The loop body of `KMedoids::calcBestDistancesSwap` for one medoid slot
`k` on the accumulator `(best, second, assignment)`. -/
def calcStep (c : Ctx) (M : List ℕ) (i : ℕ) (acc : F × F × ℕ) (k : ℕ) :
    F × F × ℕ :=
  let cost := c.d (M.getD k 0) i
  if F.lt cost acc.1 then (cost, acc.1, k)
  else if F.lt cost acc.2.1 then (acc.1, cost, acc.2.2) else acc

/-- `KMedoids::calcBestDistancesSwap` (shared base-class routine; its body
is the one visible as `KMedoids::calc_best_distances_swap` in
`kmedoids_ucb.cpp`): for every point the smallest and second-smallest
distance to a medoid, and the index of the first medoid realising the
smallest.  `assignments(i)` is only written when a strict improvement is
seen, so the previous assignment `A` is carried in. -/
def calcBestDistancesSwap (c : Ctx) (M : List ℕ) (A : ℕ → ℕ) :
    (ℕ → F) × (ℕ → F) × (ℕ → ℕ) :=
  let scan : ℕ → F × F × ℕ := fun i =>
    (List.range M.length).foldl (calcStep c M i) (F.pinf, F.pinf, A i)
  (fun i => (scan i).1, fun i => (scan i).2.1, fun i => (scan i).2.2)

/-- The per-point sample of the SWAP phase (bodies of
`BanditPAM::swapSigma` and `swapTarget`): candidate `n` against reference
`r`, falling back to the second-best distance when `r` is assigned to the
medoid slot `k` being replaced. -/
def swapSample (c : Ctx) (bestD secondD : ℕ → F) (A : ℕ → ℕ) (k n r : ℕ) : F :=
  let cost := c.d n r
  let v :=
    if k = A r then (if F.lt cost (secondD r) then cost else secondD r)
    else (if F.lt cost (bestD r) then cost else bestD r)
  F.sub v (bestD r)

/-- `BanditPAM::swapSigma`: one batch, then the sample standard deviation
for every arm `i < K*N`, decoded as `n = i / K`, `k = i % K`. -/
def swapSigma (c : Ctx) (s : Samp) (bestD secondD : ℕ → F) (A : ℕ → ℕ) :
    (ℕ → F) × Samp :=
  let K := c.p.nMedoids
  let (refs, s') := getRefs c s c.p.batchSize
  (fun i => stddevF c.sq (refs.map (fun r => swapSample c bestD secondD A (i % K) (i / K) r)), s')

/-- `BanditPAM::swapTarget`: one batch (the whole reference set when
`exact > 0`), then the per-arm mean sample value; the arm index `t`
decodes as `n = t / K`, `k = t % K` (`K = medoid_indices->n_cols`). -/
def swapTarget (c : Ctx) (s : Samp) (bestD secondD : ℕ → F) (A : ℕ → ℕ)
    (exact : ℕ) : (ℕ → F) × Samp :=
  let K := c.p.nMedoids
  let tmpBatchSize := if 0 < exact then c.n else c.p.batchSize
  let (refs, s') := getRefs c s tmpBatchSize
  (fun t => F.divNat
      (F.lsum (refs.map (fun r => swapSample c bestD secondD A (t % K) (t / K) r)))
      tmpBatchSize, s')

/-- Per-arm bandit state of the SWAP confidence-bound loop over the
`nMedoids × N` arm matrix, flattened column-major (`lin = k + K * n`, the
layout on which `arma::index_min` and `.elem` operate), together with the
`bestDistances` / `secondBestDistances` / `assignments` triple that the
loop recomputes every pass. -/
structure SwBSt where
  estimates : ℕ → F
  lcbs : ℕ → F
  ucbs : ℕ → F
  sigma : ℕ → F
  numSamples : ℕ → ℕ
  exactMask : ℕ → Bool
  candidates : ℕ → Bool
  bestD : ℕ → F
  secondD : ℕ → F
  A : ℕ → ℕ
  samp : Samp

/-- The batched-sampling branch of the SWAP confidence-bound loop body
(`banditpam.cpp`, the code after the early break), over the `K * N`
flattened arm matrix. -/
def swapBatchUpdate (c : Ctx) (pcf : ℕ) (st1 : SwBSt) : SwBSt :=
  let KN := c.p.nMedoids * c.n
  let targets := targetsOf KN st1.candidates
  let (res, samp2) := swapTarget c st1.samp st1.bestD st1.secondD st1.A 0
  let newEst : ℕ → F := fun a =>
    F.div (F.add (F.mul (F.fin (Q.ofNat (st1.numSamples a))) (st1.estimates a))
                 (F.mul (res a) (F.fin (Q.ofNat c.p.batchSize))))
          (F.fin (Q.add (Q.ofNat c.p.batchSize) (Q.ofNat (st1.numSamples a))))
  let numSamples2 : ℕ → ℕ := fun a =>
    if a ∈ targets then st1.numSamples a + c.p.batchSize else st1.numSamples a
  let cbDelta : ℕ → F := fun a => F.mul (st1.sigma a) (F.fin (c.slf pcf (numSamples2 a)))
  let estimates2 := upd targets newEst st1.estimates
  let ucbs2 := upd targets (fun a => F.add (newEst a) (cbDelta a)) st1.ucbs
  let lcbs2 := upd targets (fun a => F.sub (newEst a) (cbDelta a)) st1.lcbs
  let ustar := F.minOver KN ucbs2
  let candidates2 : ℕ → Bool := fun a => F.lt (lcbs2 a) ustar && !(st1.exactMask a)
  { st1 with
    estimates := estimates2
    numSamples := numSamples2
    ucbs := ucbs2
    lcbs := lcbs2
    candidates := candidates2
    samp := samp2 }

/-- One pass of the SWAP confidence-bound loop body (the content of
`while (arma::accu(candidates) > 0.5)` in `BanditPAM::swap`): recompute
best distances, promote the due arms exactly (re-electing candidates),
break when fewer than `precision` candidates remain, otherwise the batched
update `swapBatchUpdate`.  The returned flag is false when the `break`
fires during this pass (the promotion effects persist either way). -/
def swapPass (c : Ctx) (pcf : ℕ) (M : List ℕ) (st : SwBSt) : SwBSt × Bool :=
  let K := c.p.nMedoids
  let KN := K * c.n
  let (b1, s1, A1) := calcBestDistancesSwap c M st.A
  let st0 := { st with bestD := b1, secondD := s1, A := A1 }
  let computeExactly : ℕ → Bool :=
    fun a => (decide (c.n ≤ st0.numSamples a + c.p.batchSize) != st0.exactMask a)
  let exTargets := targetsOf KN computeExactly
  let st1 :=
    if 0 < exTargets.length then
      let (res, samp') := swapTarget c st0.samp st0.bestD st0.secondD st0.A c.n
      let lcbs' := upd exTargets res st0.lcbs
      let ucbs' := upd exTargets res st0.ucbs
      let exact' := upd exTargets (fun _ => true) st0.exactMask
      { st0 with
        estimates := upd exTargets res st0.estimates
        ucbs := ucbs'
        lcbs := lcbs'
        exactMask := exact'
        numSamples := fun a => if a ∈ exTargets then st0.numSamples a + c.n
          else st0.numSamples a
        candidates := fun a => F.lt (lcbs' a) (F.minOver KN ucbs') && !(exact' a)
        samp := samp' }
    else st0
  if (Q.ltb (Q.ofNat (countTrue KN st1.candidates)) c.p.precision) then (st1, false)
  else (swapBatchUpdate c pcf st1, true)

/-- The SWAP confidence-bound loop: repeat `swapPass` while
`accu(candidates) > 0.5` (fuelled). -/
def swapInner (c : Ctx) (pcf : ℕ) (M : List ℕ) : ℕ → SwBSt → SwBSt
  | 0, st => st
  | fuel + 1, st =>
    if (Q.ltb ⟨1, 2⟩ (Q.ofNat (countTrue (c.p.nMedoids * c.n) st.candidates))) then
      match swapPass c pcf M st with
      | (st', false) => st'
      | (st', true) => swapInner c pcf M fuel st'
    else st

/-- Outer-loop state of `BanditPAM::swap`: the medoid list, the
assignment / distance bookkeeping, the `steps` member, the
`swap_performed` flag, the sampler, and the iteration counter `iter`. -/
structure SwSt where
  M : List ℕ
  A : ℕ → ℕ
  bestD : ℕ → F
  secondD : ℕ → F
  steps : ℕ
  swapPerformed : Bool
  samp : Samp
  iters : ℕ

/-- One iteration of the outer `while (swap_performed && iter < maxIter)`
loop of `BanditPAM::swap`: reset the permutation cursor, recompute the
distance bookkeeping and `sigma`, run the confidence-bound loop from the
freshly reset arm state, decode `lcbs.index_min()` as
`(k, n) = (idx % K, idx / K)`, set `swap_performed = (M[k] != n)`,
increment `steps` unconditionally, write `M[k] = n` and recompute the
bookkeeping. -/
def swapOuterIter (c : Ctx) (pcf fuel : ℕ) (st : SwSt) : SwSt :=
  let K := c.p.nMedoids
  let samp0 : Samp := { st.samp with permutationIdx := 0 }
  let (b1, s1, A1) := calcBestDistancesSwap c st.M st.A
  let (sigma, samp1) := swapSigma c samp0 b1 s1 A1
  let ist0 : SwBSt :=
    { estimates := fun _ => F.fin (Q.ofNat 0), lcbs := fun _ => F.fin (Q.ofNat 0),
      ucbs := fun _ => F.fin (Q.ofNat 0), sigma := sigma, numSamples := fun _ => 0,
      exactMask := fun _ => false, candidates := fun _ => true,
      bestD := b1, secondD := s1, A := A1, samp := samp1 }
  let ist := swapInner c pcf st.M fuel ist0
  let newMedoid := F.idxMin (K * c.n) ist.lcbs
  let k := newMedoid % K
  let n := newMedoid / K
  let swapPerformed := (st.M.getD k 0) ≠ n
  let M' := st.M.set k n
  let (b2, s2, A2) := calcBestDistancesSwap c M' ist.A
  { M := M', A := A2, bestD := b2, secondD := s2,
    steps := st.steps + 1, swapPerformed := swapPerformed,
    samp := ist.samp, iters := st.iters + 1 }

/-- The arm `lcbs.index_min()` that one SWAP outer iteration selects (the
same computation as in `swapOuterIter`, exposed for statements about the
swap choice; `k* = choice % K`, `i* = choice / K`). -/
def swapChoice (c : Ctx) (pcf fuel : ℕ) (st : SwSt) : ℕ :=
  let K := c.p.nMedoids
  let samp0 : Samp := { st.samp with permutationIdx := 0 }
  let (b1, s1, A1) := calcBestDistancesSwap c st.M st.A
  let (sigma, samp1) := swapSigma c samp0 b1 s1 A1
  let ist0 : SwBSt :=
    { estimates := fun _ => F.fin (Q.ofNat 0), lcbs := fun _ => F.fin (Q.ofNat 0),
      ucbs := fun _ => F.fin (Q.ofNat 0), sigma := sigma, numSamples := fun _ => 0,
      exactMask := fun _ => false, candidates := fun _ => true,
      bestD := b1, secondD := s1, A := A1, samp := samp1 }
  let ist := swapInner c pcf st.M fuel ist0
  F.idxMin (K * c.n) ist.lcbs

/-- The outer loop of `BanditPAM::swap` (fuelled by `maxIter - iter`). -/
def swapLoop (c : Ctx) (pcf innerFuel : ℕ) : ℕ → SwSt → SwSt
  | 0, st => st
  | fuel + 1, st =>
    if st.swapPerformed then
      swapLoop c pcf innerFuel fuel (swapOuterIter c pcf innerFuel st)
    else st

/-- `BanditPAM::swap` on an initial medoid list (from BUILD) and sampler:
`p = N * nMedoids * swapConfidence`, `swap_performed` starts true,
`assignments` is the uninitialised caller vector (modelled as all zero),
and the loop runs for at most `maxIter` iterations.  `steps` enters as the
`0` that `fitBanditPAM` stored. -/
def swap (c : Ctx) (innerFuel : ℕ) (M0 : List ℕ) (samp : Samp) (steps0 : ℕ) : SwSt :=
  let pcf := c.n * c.p.nMedoids * c.p.swapConfidence
  swapLoop c pcf innerFuel c.p.maxIter
    { M := M0, A := fun _ => 0, bestD := fun _ => F.fin (Q.ofNat 0),
      secondD := fun _ => F.fin (Q.ofNat 0), steps := steps0, swapPerformed := true,
      samp := samp, iters := 0 }

/-- The observable results of `BanditPAM::fitBanditPAM`. -/
structure Out where
  medoidIndicesBuild : List ℕ
  medoidIndicesFinal : List ℕ
  labels : List ℕ
  steps : ℕ
deriving DecidableEq, Repr

/-- `BanditPAM::fitBanditPAM`: transpose (already reflected in `Data`
being the column list), initialise the cache and permutation
(`permutationIdx = 0`), BUILD, `steps = 0`, SWAP, and publication of the
medoid lists and labels. -/
def fitBanditPAM (c : Ctx) (innerFuel : ℕ) : Out :=
  let samp0 : Samp := { permutationIdx := 0, rndCtr := 0 }
  let (Mb, _, samp1) := build c innerFuel samp0
  let sw := swap c innerFuel Mb samp1 0
  { medoidIndicesBuild := Mb, medoidIndicesFinal := sw.M,
    labels := (List.range c.n).map sw.A, steps := sw.steps }

end BPAM

namespace KM

/-- The loss function selected by `KMedoids::setLossFn` (a
pointer-to-member in the source). -/
inductive LossTag where
  | manhattanT : LossTag
  | cosT : LossTag
  | l1T : LossTag
  | l2T : LossTag
deriving DecidableEq, Repr

/-- Dispatch of `(this->*lossFn)(i, j)`. -/
def lossEval (sq : Q → Q) : LossTag → Data → ℕ → ℕ → F
  | .manhattanT => manhattan
  | .cosT => cos sq
  | .l1T => L1
  | .l2T => L2 sq

/-- The fit routine selected by `KMedoids::checkAlgorithm` (the `fitFn`
pointer-to-member). -/
inductive FitTag where
  | bpamT : FitTag
  | naiveT : FitTag
deriving DecidableEq, Repr

/-- `KMedoids::checkAlgorithm`: maps `"BanditPAM"` / `"naive"` to the fit
routine and throws `"unrecognized algorithm"` otherwise. -/
def checkAlgorithm (algorithm : String) : Except String FitTag :=
  if algorithm = ("BanditPAM") then .ok .bpamT
  else if algorithm = ("naive") then .ok .naiveT
  else .error ("unrecognized algorithm")

/-- `KMedoids::setLossFn`: maps the loss name to the loss function and
throws `"unrecognized loss function"` otherwise. -/
def setLossFn (loss : String) : Except String LossTag :=
  if loss = ("manhattan") then .ok .manhattanT
  else if loss = ("cos") then .ok .cosT
  else if loss = ("L1") then .ok .l1T
  else if loss = ("L2") then .ok .l2T
  else .error ("unrecognized loss function")

/-- The observable state of a `KMedoids` object (`kmedoids_ucb.cpp`
variant).  The numeric options beyond the constructor arguments
(`batchSize`, `buildConfidence`, `swapConfidence`, `precision`) live in the
missing header `kmedoids_ucb.hpp` and are carried in `opts`. -/
structure State where
  opts : BPAM.Prm
  algorithm : String
  fitFn : FitTag
  medoid_indices_build : List ℕ
  medoid_indices_final : List ℕ
  labels : List ℕ
  steps : ℕ
deriving DecidableEq, Repr

/-- The `KMedoids` constructor: records the options and validates the
algorithm name through `checkAlgorithm`, which sets `fitFn`.  The result
vectors start as default-constructed (empty) `arma` vectors.
Modelled from the spec: the option fields not taken by this constructor
(`batch_size`, confidences, `precision_floor`) hold the §6 defaults;
`usePerm := false` since this variant samples with `arma::randperm`. -/
def mkKMedoids (n_medoids : ℕ) (algorithm : String) (max_iter : ℕ) :
    Except String State :=
  (checkAlgorithm algorithm).map (fun tag =>
    { opts := { BPAM.defaultPrm n_medoids with maxIter := max_iter, usePerm := false }
      algorithm := algorithm
      fitFn := tag
      medoid_indices_build := []
      medoid_indices_final := []
      labels := []
      steps := 0 })

/-- `KMedoids::setAlgorithm`: `algorithm = new_alg;` — it neither
validates the name nor updates `fitFn`. -/
def setAlgorithm (st : State) (new_alg : String) : State :=
  { st with algorithm := new_alg }

/-- `KMedoids::build_naive` over `N` points with loss `d`: greedily add the
point minimising the total cost against the already placed medoids. -/
def build_naive (d : ℕ → ℕ → F) (N K : ℕ) : List ℕ :=
  (List.range K).foldl
    (fun M _k =>
      let best :=
        ((List.range N).foldl
          (fun acc i =>
            let total := F.lsum ((List.range N).map (fun j =>
              let cost := d i j
              M.foldl (fun cost m =>
                let current := d m j
                if F.lt current cost then current else cost) cost))
            if F.lt total acc.2 then (i, total) else acc)
          (0, F.pinf)).1
      M ++ [best])
    []

/-- `KMedoids::swap_naive`: scan all `(k, i)` swaps, keep the best total
cost, and write `medoid_indices(medoid_to_swap) = best` unconditionally. -/
def swap_naive (d : ℕ → ℕ → F) (N : ℕ) (M : List ℕ) : List ℕ :=
  let K := M.length
  let pick :=
    (List.range K).foldl
      (fun acc k =>
        (List.range N).foldl
          (fun acc i =>
            let total := F.lsum ((List.range N).map (fun j =>
              let cost := d i j
              (List.range K).foldl (fun cost m =>
                if m = k then cost
                else
                  let current := d (M.getD m 0) j
                  if F.lt current cost then current else cost) cost))
            if F.lt total acc.2.2 then (k, i, total) else acc)
          acc)
      (0, 0, F.pinf)
  M.set pick.1 pick.2.1

/-- The `while (i < max_iter && medoidChange)` loop of
`KMedoids::fit_naive` (the flag starts true; an iteration swaps and stops
when nothing moved). -/
def naiveLoop (d : ℕ → ℕ → F) (N : ℕ) : ℕ → List ℕ → List ℕ
  | 0, M => M
  | fuel + 1, M =>
    let M' := swap_naive d N M
    if M' ≠ M then naiveLoop d N fuel M' else M'

/-- `KMedoids::fit_naive`: build, `steps = 0`, swap until stable.  The
`labels` member is never written on this path (the source carries a
`TODO: make assignments in naive code too!`). -/
def fit_naive (d : ℕ → ℕ → F) (st : State) (N : ℕ) : State :=
  let M0 := build_naive d N st.opts.nMedoids
  let Mfin := naiveLoop d N st.opts.maxIter M0
  { st with
    medoid_indices_build := M0
    medoid_indices_final := Mfin
    steps := 0 }

/-- `KMedoids::fit_bpam`: the bandit algorithm of this variant — the same
routine as `BanditPAM::fitBanditPAM` with every reference batch drawn by
`arma::randperm` (the `rnd` stream) instead of the permutation walk. -/
def fit_bpam (sq : Q → Q) (slf : ℕ → ℕ → Q) (rnd : ℕ → List ℕ)
    (d : ℕ → ℕ → F) (st : State) (N : ℕ) : State :=
  let c : BPAM.Ctx :=
    { p := st.opts, n := N, d := d, sq := sq, slf := slf, perm := [], rnd := rnd }
  let out := BPAM.fitBanditPAM c (N + 2)
  { st with
    medoid_indices_build := out.medoidIndicesBuild
    medoid_indices_final := out.medoidIndicesFinal
    labels := out.labels
    steps := out.steps }

/-- `KMedoids::fit`: sets the loss function from the `loss` argument —
throwing inside `fit` on an unknown name, before any clustering — and then
dispatches through the `fitFn` member selected at construction time. -/
def fit (sq : Q → Q) (slf : ℕ → ℕ → Q) (rnd : ℕ → List ℕ)
    (st : State) (data : Data) (loss : String) : Except String State :=
  (setLossFn loss).map (fun tag =>
    match st.fitFn with
    | .naiveT => fit_naive (lossEval sq tag data) st data.length
    | .bpamT => fit_bpam sq slf rnd (lossEval sq tag data) st data.length)

end KM

/-! ## Concrete run instances

Small datasets on which the embedded algorithms are evaluated exactly.
Whenever `batchSize ≥ n` (`batch_size` is a caller-settable option), the
first pass of each confidence-bound loop promotes every arm exactly and
the bandit control flow never consults the confidence radius, so the runs
below are independent of the `sq` / `slf` surrogates wherever those appear
with a zero factor. -/

/-- Five unit vectors with rational coordinates (points 0 and 1 coincide);
their pairwise cosine losses are exact rationals. -/
def dataCos5 : Data :=
  [[⟨5, 13⟩, ⟨-12, 13⟩], [⟨5, 13⟩, ⟨-12, 13⟩], [⟨21, 29⟩, ⟨20, 29⟩],
   [⟨-21, 29⟩, ⟨20, 29⟩], [⟨-15, 17⟩, ⟨8, 17⟩]]

/-- Options for the `dataCos5` run: `k = 3`, caller-set `batch_size = 5`,
remaining options at their spec defaults. -/
def prmCos5 : BPAM.Prm :=
  { nMedoids := 3, maxIter := 1000, batchSize := 5, buildConfidence := 1000,
    swapConfidence := 1000, usePerm := true, precision := ⟨1, 2⟩ }

/-- Run context: cosine loss on `dataCos5`, identity permutation.  All five
unit vectors have `dot x x = 1` and `ratSqrt 1 = 1`, so every loss value is
the exact cosine. -/
def ctxCos5 : BPAM.Ctx :=
  { p := prmCos5, n := 5, d := KM.lossEval ratSqrt KM.LossTag.cosT dataCos5,
    sq := ratSqrt, slf := fun _ _ => Q.ofNat 0, perm := [0, 1, 2, 3, 4], rnd := fun _ => [] }

/-- The swap-phase entry state of the `ctxCos5` fit (as `fitBanditPAM`
builds it: medoids from BUILD, `steps = 0`, `swap_performed = true`). -/
def swStartCos5 : BPAM.SwSt :=
  let r := BPAM.build ctxCos5 7 { permutationIdx := 0, rndCtr := 0 }
  { M := r.1, A := fun _ => 0, bestD := fun _ => F.fin (Q.ofNat 0),
    secondD := fun _ => F.fin (Q.ofNat 0), steps := 0, swapPerformed := true,
    samp := r.2.2, iters := 0 }

/-- Two coincident one-dimensional points. -/
def dataId2 : Data := [[Q.ofNat 0], [Q.ofNat 0]]

/-- Options for the `dataId2` run: `k = 1`, caller-set `batch_size = 2`. -/
def prmId2 : BPAM.Prm :=
  { nMedoids := 1, maxIter := 1000, batchSize := 2, buildConfidence := 1000,
    swapConfidence := 1000, usePerm := true, precision := ⟨1, 2⟩ }

/-- Run context: L1 loss on `dataId2` (every distance is `0`, so every
standard deviation is `0` and the confidence radius never matters). -/
def ctxId2 : BPAM.Ctx :=
  { p := prmId2, n := 2, d := KM.lossEval ratSqrt KM.LossTag.l1T dataId2,
    sq := ratSqrt, slf := fun _ _ => Q.ofNat 0, perm := [0, 1], rnd := fun _ => [] }

/-- Three one-dimensional points `0, 1, 9`. -/
def dataOvr3 : Data := [[Q.ofNat 0], [Q.ofNat 1], [Q.ofNat 9]]

/-- Options for the `dataOvr3` run: `k = 1`, caller-set `batch_size = 2 < n = 3`,
so the first inner pass is a genuine batched pass. -/
def prmOvr3 : BPAM.Prm :=
  { nMedoids := 1, maxIter := 1000, batchSize := 2, buildConfidence := 1000,
    swapConfidence := 1000, usePerm := true, precision := ⟨1, 2⟩ }

/-- Run context for the sample-count overshoot: L1 loss on `dataOvr3`.
All three arms keep positive standard deviation after the first batch, so
the surviving candidates force a second pass; the second pass promotes
every arm exactly (`T + batchSize = 4 ≥ 3`), adding `n = 3` on top of the
`2` batched samples.  The surrogates are fixed positive stand-ins
(`sq _ = 1` off zero, `slf _ _ = 1`); the promotion set in the second pass
is `(T + batchSize ≥ n) != exactMask`, which does not consult them, and
the first-pass candidate set is the same for any positive radius of
moderate size, in particular for the true `σ·√(log(3000)/2)` values. -/
def ctxOvr3 : BPAM.Ctx :=
  { p := prmOvr3, n := 3, d := KM.lossEval ratSqrt KM.LossTag.l1T dataOvr3,
    sq := fun q => if Q.isZero q then Q.ofNat 0 else Q.ofNat 1, slf := fun _ _ => Q.ofNat 1,
    perm := [0, 1, 2], rnd := fun _ => [] }

/-- The BUILD medoid step of the `ctxOvr3` run (the single `k = 0` step:
fresh arm state, `bestDistances = +∞`, absolute mode). -/
def ovr3BuildSt : BPAM.BSt :=
  (BPAM.buildStep ctxOvr3 (1000 * 3) 5 [] (fun _ => F.pinf) true
    { permutationIdx := 0, rndCtr := 0 }).2.2

/-- Four one-dimensional points `0, 10, 11, 12` on which greedy BUILD is
suboptimal, so the first SWAP iteration performs a genuine improving swap
whose chosen candidate is not a sitting medoid. -/
def dataSw4 : Data := [[Q.ofNat 0], [Q.ofNat 10], [Q.ofNat 11], [Q.ofNat 12]]

/-- Options for the `dataSw4` run: `k = 2`, caller-set `batch_size = 4`. -/
def prmSw4 : BPAM.Prm :=
  { nMedoids := 2, maxIter := 1000, batchSize := 4, buildConfidence := 1000,
    swapConfidence := 1000, usePerm := true, precision := ⟨1, 2⟩ }

/-- Run context: L1 loss on `dataSw4`, identity permutation. -/
def ctxSw4 : BPAM.Ctx :=
  { p := prmSw4, n := 4, d := KM.lossEval ratSqrt KM.LossTag.l1T dataSw4,
    sq := ratSqrt, slf := fun _ _ => Q.ofNat 0, perm := [0, 1, 2, 3], rnd := fun _ => [] }

/-- The swap-phase entry state of the `ctxSw4` fit. -/
def swStartSw4 : BPAM.SwSt :=
  let r := BPAM.build ctxSw4 6 { permutationIdx := 0, rndCtr := 0 }
  { M := r.1, A := fun _ => 0, bestD := fun _ => F.fin (Q.ofNat 0),
    secondD := fun _ => F.fin (Q.ofNat 0), steps := 0, swapPerformed := true,
    samp := r.2.2, iters := 0 }

/-- A `KMedoids` object constructed as `KMedoids(2, "naive", ..., 1000, ...)`
(the value `checkAlgorithm` accepts and the constructor stores). -/
def kmNaive2 : KM.State :=
  { opts := { BPAM.defaultPrm 2 with maxIter := 1000, usePerm := false }
    algorithm := ("naive")
    fitFn := KM.FitTag.naiveT
    medoid_indices_build := []
    medoid_indices_final := []
    labels := []
    steps := 0 }

/-- The same with `n_medoids = 1`. -/
def kmNaive1 : KM.State :=
  { opts := { BPAM.defaultPrm 1 with maxIter := 1000, usePerm := false }
    algorithm := ("naive")
    fitFn := KM.FitTag.naiveT
    medoid_indices_build := []
    medoid_indices_final := []
    labels := []
    steps := 0 }

/-- A one-point dataset. -/
def dataOne : Data := [[Q.ofNat 0]]

/-- A dataset of two all-zero columns. -/
def dataZero2 : Data := [[Q.ofNat 0, Q.ofNat 0], [Q.ofNat 0, Q.ofNat 0]]

/-- Two vectors of norm 5 with a rational cosine. -/
def dataCosPair : Data := [[Q.ofNat 3, Q.ofNat 4], [Q.ofNat 4, Q.ofNat 3]]

/-- The swap-phase entry state of the `ctxId2` fit. -/
def swStartId2 : BPAM.SwSt :=
  let r := BPAM.build ctxId2 4 { permutationIdx := 0, rndCtr := 0 }
  { M := r.1, A := fun _ => 0, bestD := fun _ => F.fin (Q.ofNat 0),
    secondD := fun _ => F.fin (Q.ofNat 0), steps := 0, swapPerformed := true,
    samp := r.2.2, iters := 0 }

/-! ## Shared helper lemmas -/

/-- Folding `Q.add` over values with zero numerator keeps the numerator
zero. -/
theorem foldl_add_num_zero (xs : List Q) (acc : Q) (hacc : acc.num = 0)
    (h : ∀ q ∈ xs, q.num = 0) : (xs.foldl Q.add acc).num = 0 := by
  induction xs generalizing acc with
  | nil => exact hacc
  | cons a xs ih =>
    have ha : a.num = 0 := h a (by simp)
    have hstep : (Q.add acc a).num = 0 := by
      simp [Q.add, hacc, ha]
    exact ih (Q.add acc a) hstep (fun q hq => h q (by simp [hq]))

/-- A dot product against an all-zero column has zero numerator (left
argument). -/
theorem dotV_zero_left (x y : Vec) (h : ∀ q ∈ x, q.num = 0) :
    (dotV x y).num = 0 := by
  refine foldl_add_num_zero _ _ rfl ?_
  intro q hq
  simp only [List.mem_map] at hq
  obtain ⟨p, hp, rfl⟩ := hq
  have hx : p.1 ∈ x := (List.of_mem_zip hp).1
  simp [Q.mul, h p.1 hx]

/-- A dot product against an all-zero column has zero numerator (right
argument). -/
theorem dotV_zero_right (x y : Vec) (h : ∀ q ∈ y, q.num = 0) :
    (dotV x y).num = 0 := by
  refine foldl_add_num_zero _ _ rfl ?_
  intro q hq
  simp only [List.mem_map] at hq
  obtain ⟨p, hp, rfl⟩ := hq
  have hy : p.2 ∈ y := (List.of_mem_zip hp).2
  simp [Q.mul, h p.2 hy]

/-- If the `swap_performed` flag is down, the outer SWAP loop returns its
state unchanged (the `while` condition fails). -/
theorem swapLoop_stopped (c : BPAM.Ctx) (pcf innerFuel fuel : ℕ)
    (st : BPAM.SwSt) (h : st.swapPerformed = false) :
    BPAM.swapLoop c pcf innerFuel fuel st = st := by
  cases fuel with
  | zero => rfl
  | succ f => simp [BPAM.swapLoop, h]

/-! ## Claim theorems -/

/-- `ratSqrt` maps zero to zero. -/
theorem ratSqrt_num_zero (q : Q) (h : q.num = 0) : (ratSqrt q).num = 0 := by
  unfold ratSqrt
  split_ifs with hc
  · simp [h]
    decide
  · rfl

/-- C6 counterexample: on the columns `(3,4)` and `(4,3)` (norms exactly 5)
the source's `cos` returns `24/25`, the normalized inner product itself,
while the claimed `1 − ⟨x_i,x_j⟩/(‖x_i‖·‖x_j‖)` is `1/25`; the two
disagree. -/
theorem C6_counterexample :
    KM.cos ratSqrt dataCosPair 0 1 = F.fin ⟨24, 25⟩ ∧
    KM.cosSpec ratSqrt dataCosPair 0 1 = F.fin ⟨1, 25⟩ ∧
    KM.cos ratSqrt dataCosPair 0 1 ≠ KM.cosSpec ratSqrt dataCosPair 0 1 ∧
    F.same (KM.cos ratSqrt dataCosPair 0 1) (KM.cosSpec ratSqrt dataCosPair 0 1) = false := by
  refine ⟨by decide, by decide, by decide, by decide⟩

/-- C6 amended: for every pair of point indices, the cosine loss equals the
normalized inner product `⟨x_i,x_j⟩/(‖x_i‖·‖x_j‖)` itself — without the
`1 −` — so the spec's `1 − normalized inner product` is exactly
`1 - cos(i,j)`. -/
theorem C6_amended (sq : Q → Q) (data : Data) (i j : ℕ) :
    KM.cos sq data i j =
      F.div (F.fin (dotV (data.col i) (data.col j)))
        (F.mul (F.fin (sq (dotV (data.col i) (data.col i))))
               (F.fin (sq (dotV (data.col j) (data.col j))))) ∧
    KM.cosSpec sq data i j = F.sub (F.fin (Q.ofNat 1)) (KM.cos sq data i j) := by
  exact ⟨rfl, rfl⟩

/-- C10: the cosine loss divides by the product of the two column norms
with no zero guard: for any column `i` that is all zero (so its norm is
`sq 0 = 0`), every `cos(i, j)` and `cos(j, i)` is the division `0 / 0`,
i.e. NaN; and `fit` with the loss option `"cos"` dispatches to exactly
this function — on the all-zero two-point dataset the naive fit runs to
completion through it. -/
theorem C10_unguarded_cos_nan (sq : Q → Q)
    (hsq : ∀ q, q.num = 0 → (sq q).num = 0) (data : Data)
    (i : ℕ) (hz : ∀ q ∈ data.col i, q.num = 0) :
    (∀ j, KM.cos sq data i j = F.nan ∧ KM.cos sq data j i = F.nan) ∧
    KM.setLossFn ("cos") = Except.ok KM.LossTag.cosT ∧
    (∀ (slf : ℕ → ℕ → Q) (rnd : ℕ → List ℕ),
      KM.fit sq slf rnd kmNaive1 dataZero2 ("cos") =
        Except.ok (KM.fit_naive (KM.lossEval sq KM.LossTag.cosT dataZero2) kmNaive1 2)) := by
  refine ⟨fun j => ?_, rfl, fun slf rnd => rfl⟩
  have h1 : (dotV (data.col i) (data.col j)).num = 0 := dotV_zero_left _ _ hz
  have h2 : (dotV (data.col j) (data.col i)).num = 0 := dotV_zero_right _ _ hz
  have h3 : (dotV (data.col i) (data.col i)).num = 0 := dotV_zero_left _ _ hz
  have hden : (Q.mul (sq (dotV (data.col i) (data.col i)))
      (sq (dotV (data.col j) (data.col j)))).num = 0 := by
    simp [Q.mul, hsq _ h3]
  constructor
  · simp only [KM.cos]
    rw [show F.div (F.fin (dotV (data.col i) (data.col j)))
        (F.mul (F.fin (sq (dotV (data.col i) (data.col i))))
               (F.fin (sq (dotV (data.col j) (data.col j))))) =
        F.div (F.fin (dotV (data.col i) (data.col j)))
          (F.fin (Q.mul (sq (dotV (data.col i) (data.col i)))
                        (sq (dotV (data.col j) (data.col j))))) from rfl]
    simp [F.div, Q.isZero, hden, h1]
  · simp only [KM.cos]
    rw [show F.div (F.fin (dotV (data.col j) (data.col i)))
        (F.mul (F.fin (sq (dotV (data.col j) (data.col j))))
               (F.fin (sq (dotV (data.col i) (data.col i))))) =
        F.div (F.fin (dotV (data.col j) (data.col i)))
          (F.fin (Q.mul (sq (dotV (data.col j) (data.col j)))
                        (sq (dotV (data.col i) (data.col i))))) from rfl]
    have hden' : (Q.mul (sq (dotV (data.col j) (data.col j)))
        (sq (dotV (data.col i) (data.col i)))).num = 0 := by
      simp [Q.mul, hsq _ h3]
    simp [F.div, Q.isZero, hden', h2]

/-- C10 witness: the concrete all-zero dataset with the computable square
root: `cos(0,1)` is NaN and `fit` with loss `"cos"` completes through it. -/
theorem C10_unguarded_cos_nan_witness :
    KM.cos ratSqrt dataZero2 0 1 = F.nan ∧
    KM.setLossFn ("cos") = Except.ok KM.LossTag.cosT ∧
    KM.fit ratSqrt (fun _ _ => Q.ofNat 0) (fun _ => []) kmNaive1 dataZero2 ("cos") =
      Except.ok (KM.fit_naive (KM.lossEval ratSqrt KM.LossTag.cosT dataZero2) kmNaive1 2) := by
  have h := C10_unguarded_cos_nan ratSqrt ratSqrt_num_zero dataZero2 0 (by decide)
  exact ⟨(h.1 1).1, h.2.1, h.2.2 (fun _ _ => Q.ofNat 0) (fun _ => [])⟩

set_option maxRecDepth 1000000

/-- C3 counterexample: `setAlgorithm` performs no validation — after
constructing a valid `"naive"` object, setting an unrecognized algorithm
name raises nothing (the call returns the updated object, with the stale
`fitFn`), and a subsequent `fit` is entered and runs to completion with
the unknown algorithm name in place. -/
theorem C3_counterexample :
    KM.mkKMedoids 2 ("naive") 1000 = Except.ok kmNaive2 ∧
    (KM.setAlgorithm kmNaive2 ("bogus-algorithm")).algorithm = ("bogus-algorithm") ∧
    (KM.setAlgorithm kmNaive2 ("bogus-algorithm")).fitFn = KM.FitTag.naiveT ∧
    KM.fit ratSqrt (fun _ _ => Q.ofNat 0) (fun _ => [])
        (KM.setAlgorithm kmNaive2 ("bogus-algorithm")) dataOne ("L1") =
      Except.ok (KM.fit_naive (KM.lossEval ratSqrt KM.LossTag.l1T dataOne)
        (KM.setAlgorithm kmNaive2 ("bogus-algorithm")) 1) := by
  refine ⟨rfl, by decide, by decide, rfl⟩

/-- C3 amended: an unknown algorithm name is rejected synchronously only at
construction time; `setAlgorithm` performs no validation (it neither
throws nor touches the `fitFn` dispatch); an unknown loss name is rejected
inside `fit` — before any clustering runs, but after `fit` has been
entered. -/
theorem C3_amended (n m : ℕ) (a : String)
    (h1 : a ≠ ("BanditPAM")) (h2 : a ≠ ("naive")) (st : KM.State)
    (loss : String) (g1 : loss ≠ ("manhattan")) (g2 : loss ≠ ("cos"))
    (g3 : loss ≠ ("L1")) (g4 : loss ≠ ("L2"))
    (sq : Q → Q) (slf : ℕ → ℕ → Q) (rnd : ℕ → List ℕ) (data : Data) :
    KM.mkKMedoids n a m = Except.error ("unrecognized algorithm") ∧
    KM.fit sq slf rnd st data loss = Except.error ("unrecognized loss function") ∧
    (KM.setAlgorithm st a).fitFn = st.fitFn ∧
    (KM.setAlgorithm st a).algorithm = a := by
  refine ⟨?_, ?_, rfl, rfl⟩
  · simp [KM.mkKMedoids, KM.checkAlgorithm, h1, h2, Except.map]
  · simp [KM.fit, KM.setLossFn, g1, g2, g3, g4, Except.map]

/-- C3 amended, witness instance. -/
theorem C3_amended_witness :
    KM.mkKMedoids 3 ("bogus-algorithm") 10 = Except.error ("unrecognized algorithm") ∧
    KM.fit ratSqrt (fun _ _ => Q.ofNat 0) (fun _ => []) kmNaive1 dataOne ("bogus-loss") =
      Except.error ("unrecognized loss function") ∧
    (KM.setAlgorithm kmNaive1 ("bogus-algorithm")).fitFn = kmNaive1.fitFn ∧
    (KM.setAlgorithm kmNaive1 ("bogus-algorithm")).algorithm = ("bogus-algorithm") := by
  exact C3_amended 3 10 ("bogus-algorithm") (by decide) (by decide) kmNaive1
    ("bogus-loss") (by decide) (by decide) (by decide) (by decide)
    ratSqrt (fun _ _ => Q.ofNat 0) (fun _ => []) dataOne

/-- C7 counterexample: a `fit` call with `k = 2 > n = 1` raises no
dimension error at entry — it runs the naive algorithm to completion and
publishes results (the duplicated medoid list `[0, 0]`). -/
theorem C7_counterexample :
    kmNaive2.opts.nMedoids = 2 ∧ dataOne.length = 1 ∧
    KM.fit ratSqrt (fun _ _ => Q.ofNat 0) (fun _ => []) kmNaive2 dataOne ("L1") =
      Except.ok (KM.fit_naive (KM.lossEval ratSqrt KM.LossTag.l1T dataOne) kmNaive2 1) ∧
    (KM.fit_naive (KM.lossEval ratSqrt KM.LossTag.l1T dataOne) kmNaive2 1).medoid_indices_final
      = [0, 0] := by
  refine ⟨by decide, by decide, rfl, by decide⟩

/-- C7 amended: `fit` performs no dimension validation — no
`DimensionMismatch` is raised at entry for `k > n` or an empty dataset;
with a recognised loss name `fit` enters and dispatches to the selected
algorithm unconditionally.  On the naive path — plain loops with no
Armadillo sampler, with at least one medoid requested so the final
in-place medoid write stays in bounds — the fit then runs to completion
and publishes its results for every dataset, including `k > n` and the
empty one.  (On the BanditPAM path a degenerate dataset instead aborts
later, inside the sampler's own size check — not with the spec's
`DimensionMismatch` at fit entry — so no completion is claimed there.) -/
theorem C7_amended (sq : Q → Q) (slf : ℕ → ℕ → Q) (rnd : ℕ → List ℕ)
    (st : KM.State) (data : Data) (loss : String) (tag : KM.LossTag)
    (h : KM.setLossFn loss = Except.ok tag)
    (halg : st.fitFn = KM.FitTag.naiveT) ( _hk : 1 ≤ st.opts.nMedoids) :
    KM.fit sq slf rnd st data loss =
      Except.ok (KM.fit_naive (KM.lossEval sq tag data) st data.length) := by
  simp [KM.fit, h, Except.map, halg]

/-- C7 amended, witness instance: the empty dataset with `k = 1` on the
naive path is not rejected. -/
theorem C7_amended_witness :
    KM.setLossFn ("L2") = Except.ok KM.LossTag.l2T ∧
    kmNaive1.fitFn = KM.FitTag.naiveT ∧
    1 ≤ kmNaive1.opts.nMedoids ∧
    KM.fit ratSqrt (fun _ _ => Q.ofNat 0) (fun _ => []) kmNaive1 ([] : Data) ("L2") =
      Except.ok (KM.fit_naive (KM.lossEval ratSqrt KM.LossTag.l2T ([] : Data)) kmNaive1 0) :=
  ⟨rfl, by decide, by decide,
   C7_amended ratSqrt (fun _ _ => Q.ofNat 0) (fun _ => []) kmNaive1 [] ("L2")
     KM.LossTag.l2T rfl (by decide) (by decide)⟩

/-- C2 counterexample: the naive path of `fit` never writes `labels` (the
source carries a `TODO`), so after a successful naive fit on a one-point
dataset the labels member is still the empty vector, not a length-`n`
assignment vector. -/
theorem C2_counterexample :
    KM.fit ratSqrt (fun _ _ => Q.ofNat 0) (fun _ => []) kmNaive1 dataOne ("L1") =
      Except.ok (KM.fit_naive (KM.lossEval ratSqrt KM.LossTag.l1T dataOne) kmNaive1 1) ∧
    (KM.fit_naive (KM.lossEval ratSqrt KM.LossTag.l1T dataOne) kmNaive1 1).labels = [] ∧
    dataOne.length = 1 ∧
    (KM.fit_naive (KM.lossEval ratSqrt KM.LossTag.l1T dataOne) kmNaive1 1).labels.length
      ≠ dataOne.length := by
  refine ⟨rfl, by decide, by decide, by decide⟩

/-- C5 counterexample: in the BUILD confidence-bound loop on `dataOvr3`
(`n = 3`, `batch_size = 2`), arm 0 ends with `T = 5 > n = 3`: after one
batched pass (`T = 2`) the exact promotion adds a further `n = 3` samples
on top, contradicting `T[a] ≤ n`. -/
theorem C5_counterexample :
    ovr3BuildSt.numSamples 0 = 5 ∧ ctxOvr3.n = 3 ∧
    ovr3BuildSt.exactMask 0 = true ∧
    ¬ (ovr3BuildSt.numSamples 0 ≤ ctxOvr3.n) := by
  refine ⟨by decide, by decide, by decide, by decide⟩

/-- C4 counterexample: on the five rational unit vectors of `dataCos5`
under the cosine loss, BUILD returns the medoid list `[2, 0, 3]` and the
first SWAP outer iteration performs a successful swap (`M[0] = 2 ≠ 0`)
that writes the sitting medoid `0 = M[1]` into slot 0: immediately after
this successful swap the medoid set is `[0, 0, 3]`, which contains a
duplicate index.  The full fit ends with that duplicated set. -/
theorem C4_counterexample :
    swStartCos5.M = [2, 0, 3] ∧
    (BPAM.swapOuterIter ctxCos5 (5 * 3 * 1000) 7 swStartCos5).swapPerformed = true ∧
    (BPAM.swapOuterIter ctxCos5 (5 * 3 * 1000) 7 swStartCos5).M = [0, 0, 3] ∧
    ¬ (BPAM.swapOuterIter ctxCos5 (5 * 3 * 1000) 7 swStartCos5).M.Nodup ∧
    (BPAM.fitBanditPAM ctxCos5 7).medoidIndicesFinal = [0, 0, 3] := by
  refine ⟨by decide, by decide, by decide, by decide, by decide⟩

/-- C1 counterexample: on two identical points the very first proposed
swap is a no-op (`swap_performed = false`), yet `steps++` has already run:
the fit reports `steps = 1`, not the claimed `0`. -/
theorem C1_counterexample :
    (BPAM.swapOuterIter ctxId2 (2 * 1 * 1000) 4 swStartId2).swapPerformed = false ∧
    (BPAM.swapOuterIter ctxId2 (2 * 1 * 1000) 4 swStartId2).steps = 1 ∧
    (BPAM.fitBanditPAM ctxId2 4).medoidIndicesFinal
      = (BPAM.fitBanditPAM ctxId2 4).medoidIndicesBuild ∧
    (BPAM.fitBanditPAM ctxId2 4).steps = 1 := by
  refine ⟨by decide, by decide, by decide, by decide⟩

/-- C1 amended: `steps` is incremented unconditionally on every SWAP outer
iteration, whether or not the chosen swap changed a medoid; consequently a
fit whose first proposed swap is a no-op reports `steps = 1` (one
terminating iteration), not `0`. -/
theorem C1_amended (c : BPAM.Ctx) (pcf innerFuel outerFuel : ℕ) (st : BPAM.SwSt) :
    ((BPAM.swapOuterIter c pcf innerFuel st).steps = st.steps + 1) ∧
    (st.swapPerformed = true →
      (BPAM.swapOuterIter c pcf innerFuel st).swapPerformed = false →
      (BPAM.swapLoop c pcf innerFuel (outerFuel + 1) st).steps = st.steps + 1) := by
  constructor
  · rfl
  · intro h1 h2
    have hstep : BPAM.swapLoop c pcf innerFuel (outerFuel + 1) st =
        BPAM.swapLoop c pcf innerFuel outerFuel (BPAM.swapOuterIter c pcf innerFuel st) := by
      simp [BPAM.swapLoop, h1]
    rw [hstep, swapLoop_stopped c pcf innerFuel outerFuel _ h2]
    rfl

/-- C1 amended, witness instance: the identical-points run. -/
theorem C1_amended_witness :
    ((BPAM.swapOuterIter ctxId2 2000 4 swStartId2).steps = swStartId2.steps + 1) ∧
    (BPAM.swapLoop ctxId2 2000 4 1 swStartId2).steps = swStartId2.steps + 1 := by
  have h := C1_amended ctxId2 2000 4 0 swStartId2
  exact ⟨h.1, h.2 (by decide) (by decide)⟩

/-- Membership in `arma::find` of a mask. -/
theorem mem_targetsOf {n : ℕ} {mask : ℕ → Bool} {a : ℕ} :
    a ∈ BPAM.targetsOf n mask ↔ a < n ∧ mask a = true := by
  simp [BPAM.targetsOf, List.mem_filter, List.mem_range]

/-- C8: pointwise content of one batched-sampling pass, for both the BUILD
and the SWAP confidence-bound loops.  Every candidate arm `a` is updated by
exactly `μ[a] ← (T[a]·μ[a] + batch·result[a]) / (T[a] + batch)`,
`T[a] ← T[a] + batch`, `UCB[a] = μ[a] + σ[a]·√(log p / T[a])`,
`LCB[a] = μ[a] − σ[a]·√(log p / T[a])` (the radius factor is the `slf`
surrogate); non-candidate arms are untouched; afterwards candidacy is
recomputed for all arms as `C[b] = (LCB[b] < min UCB) ∧ ¬E[b]` with the
minimum taken over all arms. -/
theorem C8_batched_update (c : BPAM.Ctx) (pcf : ℕ) (bestD : ℕ → F)
    (ua : Bool) (st : BPAM.BSt) (sw : BPAM.SwBSt) (a : ℕ)
    (ha : a < c.n) (ha2 : a < c.p.nMedoids * c.n) :
    ((st.candidates a = true →
      (BPAM.buildBatchUpdate c pcf bestD ua st).estimates a =
        F.div (F.add (F.mul (F.fin (Q.ofNat (st.numSamples a))) (st.estimates a))
                     (F.mul ((BPAM.buildTarget c st.samp bestD ua 0).1 a)
                            (F.fin (Q.ofNat c.p.batchSize))))
              (F.fin (Q.add (Q.ofNat c.p.batchSize) (Q.ofNat (st.numSamples a)))) ∧
      (BPAM.buildBatchUpdate c pcf bestD ua st).numSamples a =
        st.numSamples a + c.p.batchSize ∧
      (BPAM.buildBatchUpdate c pcf bestD ua st).ucbs a =
        F.add ((BPAM.buildBatchUpdate c pcf bestD ua st).estimates a)
          (F.mul (st.sigma a)
            (F.fin (c.slf pcf ((BPAM.buildBatchUpdate c pcf bestD ua st).numSamples a)))) ∧
      (BPAM.buildBatchUpdate c pcf bestD ua st).lcbs a =
        F.sub ((BPAM.buildBatchUpdate c pcf bestD ua st).estimates a)
          (F.mul (st.sigma a)
            (F.fin (c.slf pcf ((BPAM.buildBatchUpdate c pcf bestD ua st).numSamples a))))) ∧
     (st.candidates a = false →
      (BPAM.buildBatchUpdate c pcf bestD ua st).estimates a = st.estimates a ∧
      (BPAM.buildBatchUpdate c pcf bestD ua st).numSamples a = st.numSamples a ∧
      (BPAM.buildBatchUpdate c pcf bestD ua st).ucbs a = st.ucbs a ∧
      (BPAM.buildBatchUpdate c pcf bestD ua st).lcbs a = st.lcbs a) ∧
     (∀ b, (BPAM.buildBatchUpdate c pcf bestD ua st).candidates b =
        (F.lt ((BPAM.buildBatchUpdate c pcf bestD ua st).lcbs b)
          (F.minOver c.n (BPAM.buildBatchUpdate c pcf bestD ua st).ucbs)
          && !(st.exactMask b)))) ∧
    ((sw.candidates a = true →
      (BPAM.swapBatchUpdate c pcf sw).estimates a =
        F.div (F.add (F.mul (F.fin (Q.ofNat (sw.numSamples a))) (sw.estimates a))
                     (F.mul ((BPAM.swapTarget c sw.samp sw.bestD sw.secondD sw.A 0).1 a)
                            (F.fin (Q.ofNat c.p.batchSize))))
              (F.fin (Q.add (Q.ofNat c.p.batchSize) (Q.ofNat (sw.numSamples a)))) ∧
      (BPAM.swapBatchUpdate c pcf sw).numSamples a = sw.numSamples a + c.p.batchSize ∧
      (BPAM.swapBatchUpdate c pcf sw).ucbs a =
        F.add ((BPAM.swapBatchUpdate c pcf sw).estimates a)
          (F.mul (sw.sigma a)
            (F.fin (c.slf pcf ((BPAM.swapBatchUpdate c pcf sw).numSamples a)))) ∧
      (BPAM.swapBatchUpdate c pcf sw).lcbs a =
        F.sub ((BPAM.swapBatchUpdate c pcf sw).estimates a)
          (F.mul (sw.sigma a)
            (F.fin (c.slf pcf ((BPAM.swapBatchUpdate c pcf sw).numSamples a))))) ∧
     (sw.candidates a = false →
      (BPAM.swapBatchUpdate c pcf sw).estimates a = sw.estimates a ∧
      (BPAM.swapBatchUpdate c pcf sw).numSamples a = sw.numSamples a ∧
      (BPAM.swapBatchUpdate c pcf sw).ucbs a = sw.ucbs a ∧
      (BPAM.swapBatchUpdate c pcf sw).lcbs a = sw.lcbs a) ∧
     (∀ b, (BPAM.swapBatchUpdate c pcf sw).candidates b =
        (F.lt ((BPAM.swapBatchUpdate c pcf sw).lcbs b)
          (F.minOver (c.p.nMedoids * c.n) (BPAM.swapBatchUpdate c pcf sw).ucbs)
          && !(sw.exactMask b)))) := by
  constructor
  · refine ⟨fun hc => ?_, fun hc => ?_, fun b => rfl⟩
    · have hmem : a ∈ BPAM.targetsOf c.n st.candidates := mem_targetsOf.mpr ⟨ha, hc⟩
      refine ⟨?_, ?_, ?_, ?_⟩ <;>
        simp [BPAM.buildBatchUpdate, BPAM.upd, hmem]
    · have hmem : a ∉ BPAM.targetsOf c.n st.candidates := by
        intro h
        exact absurd (mem_targetsOf.mp h).2 (by simp [hc])
      refine ⟨?_, ?_, ?_, ?_⟩ <;>
        simp [BPAM.buildBatchUpdate, BPAM.upd, hmem]
  · refine ⟨fun hc => ?_, fun hc => ?_, fun b => rfl⟩
    · have hmem : a ∈ BPAM.targetsOf (c.p.nMedoids * c.n) sw.candidates :=
        mem_targetsOf.mpr ⟨ha2, hc⟩
      refine ⟨?_, ?_, ?_, ?_⟩ <;>
        simp [BPAM.swapBatchUpdate, BPAM.upd, hmem]
    · have hmem : a ∉ BPAM.targetsOf (c.p.nMedoids * c.n) sw.candidates := by
        intro h
        exact absurd (mem_targetsOf.mp h).2 (by simp [hc])
      refine ⟨?_, ?_, ?_, ?_⟩ <;>
        simp [BPAM.swapBatchUpdate, BPAM.upd, hmem]

/-- A small concrete BUILD arm state (arm 0 is the only candidate). -/
def c8st : BPAM.BSt :=
  { estimates := fun _ => F.fin (Q.ofNat 1), lcbs := fun _ => F.fin (Q.ofNat 1),
    ucbs := fun _ => F.fin (Q.ofNat 1), sigma := fun _ => F.fin (Q.ofNat 1),
    numSamples := fun _ => 2, exactMask := fun _ => false,
    candidates := fun a => decide (a = 0),
    samp := { permutationIdx := 0, rndCtr := 0 } }

/-- A small concrete SWAP arm state (arm 0 is the only candidate). -/
def c8sw : BPAM.SwBSt :=
  { estimates := fun _ => F.fin (Q.ofNat 1), lcbs := fun _ => F.fin (Q.ofNat 1),
    ucbs := fun _ => F.fin (Q.ofNat 1), sigma := fun _ => F.fin (Q.ofNat 1),
    numSamples := fun _ => 2, exactMask := fun _ => false,
    candidates := fun a => decide (a = 0),
    bestD := fun _ => F.fin (Q.ofNat 0), secondD := fun _ => F.fin (Q.ofNat 0),
    A := fun _ => 0, samp := { permutationIdx := 0, rndCtr := 0 } }

/-- C8 witness: concrete instances of the batched-pass update facts. -/
theorem C8_batched_update_witness :
    (BPAM.buildBatchUpdate ctxOvr3 9 (fun _ => F.pinf) true c8st).numSamples 0 =
      c8st.numSamples 0 + ctxOvr3.p.batchSize ∧
    (BPAM.buildBatchUpdate ctxOvr3 9 (fun _ => F.pinf) true c8st).numSamples 1 =
      c8st.numSamples 1 ∧
    (BPAM.swapBatchUpdate ctxOvr3 9 c8sw).numSamples 0 =
      c8sw.numSamples 0 + ctxOvr3.p.batchSize ∧
    (BPAM.buildBatchUpdate ctxOvr3 9 (fun _ => F.pinf) true c8st).candidates 1 =
      (F.lt ((BPAM.buildBatchUpdate ctxOvr3 9 (fun _ => F.pinf) true c8st).lcbs 1)
        (F.minOver ctxOvr3.n (BPAM.buildBatchUpdate ctxOvr3 9 (fun _ => F.pinf) true c8st).ucbs)
        && !(c8st.exactMask 1)) := by
  have h := C8_batched_update ctxOvr3 9 (fun _ => F.pinf) true c8st c8sw 0
    (by decide) (by decide)
  have h1 := C8_batched_update ctxOvr3 9 (fun _ => F.pinf) true c8st c8sw 1
    (by decide) (by decide)
  exact ⟨(h.1.1 (by decide)).2.1, ((h1.1.2.1 (by decide)).2.1), ((h.2.1 (by decide)).2.1),
    h.1.2.2 1⟩

/-- C9: the permutation-walk sampler.  With `usePerm` set and a draw of
size `s ≥ 1`: if `p + s - 1 ≥ n` the cursor is first reset to 0 and the
draw returns the initial slice `π[0 .. s-1]` with the cursor advanced to
`s` — the unread tail of the permutation is dropped, not wrapped;
otherwise the draw returns the contiguous slice `π[p .. p+s-1]`
(elementwise `π[p+j]`) and advances the cursor by `s`.  Moreover every
BUILD medoid step and every SWAP outer iteration runs on a cursor reset to
0: both are invariant under the incoming cursor value. -/
theorem C9_permutation_walk (c : BPAM.Ctx) (s : BPAM.Samp) (size : ℕ)
    (hu : c.p.usePerm = true) (hlen : c.perm.length = c.n) :
    (c.n ≤ s.permutationIdx + size - 1 →
      BPAM.getRefs c s size =
        (c.perm.take size, { s with permutationIdx := size })) ∧
    (s.permutationIdx + size - 1 < c.n →
      BPAM.getRefs c s size =
        ((c.perm.drop s.permutationIdx).take size,
         { s with permutationIdx := s.permutationIdx + size }) ∧
      ∀ j, j < size →
        ((BPAM.getRefs c s size).1.getD j 0 = c.perm.getD (s.permutationIdx + j) 0)) ∧
    (∀ (pcf fuel : ℕ) (M : List ℕ) (bestD : ℕ → F) (ua : Bool),
      BPAM.buildStep c pcf fuel M bestD ua s =
        BPAM.buildStep c pcf fuel M bestD ua { s with permutationIdx := 0 }) ∧
    (∀ (pcf fuel : ℕ) (sw : BPAM.SwSt),
      BPAM.swapOuterIter c pcf fuel sw =
        BPAM.swapOuterIter c pcf fuel
          { sw with samp := { sw.samp with permutationIdx := 0 } }) := by
  refine ⟨fun hge => ?_, fun hlt => ⟨?_, fun j hj => ?_⟩, fun pcf fuel M bestD ua => rfl,
    fun pcf fuel sw => rfl⟩
  · simp only [BPAM.getRefs, hu, if_true, if_pos hge, List.drop_zero]
    simp
  · simp only [BPAM.getRefs, hu, if_true, if_neg (Nat.not_le.mpr hlt)]
  · have hnr : ¬ (c.n ≤ s.permutationIdx + size - 1) := Nat.not_le.mpr hlt
    simp only [BPAM.getRefs, hu, if_true, if_neg hnr]
    have hbound : s.permutationIdx + size ≤ c.perm.length := by
      omega
    rw [List.getD_eq_getElem?_getD, List.getD_eq_getElem?_getD]
    rw [List.getElem?_take_of_lt hj, List.getElem?_drop]

/-- C9 witness: concrete draws on the `ctxCos5` permutation — a reset draw
(`p = 2`, `size = 5`, `2 + 5 - 1 ≥ 5`), a plain draw (`p = 0`,
`size = 3`), its second element, and the cursor-reset invariance of a
BUILD step and a SWAP outer iteration. -/
theorem C9_permutation_walk_witness :
    BPAM.getRefs ctxCos5 { permutationIdx := 2, rndCtr := 0 } 5 =
      (ctxCos5.perm.take 5, { permutationIdx := 5, rndCtr := 0 }) ∧
    BPAM.getRefs ctxCos5 { permutationIdx := 0, rndCtr := 0 } 3 =
      ((ctxCos5.perm.drop 0).take 3, { permutationIdx := 3, rndCtr := 0 }) ∧
    (BPAM.getRefs ctxCos5 { permutationIdx := 0, rndCtr := 0 } 3).1.getD 1 0 =
      ctxCos5.perm.getD (0 + 1) 0 ∧
    BPAM.buildStep ctxCos5 5000 7 [] (fun _ => F.pinf) true
        { permutationIdx := 4, rndCtr := 0 } =
      BPAM.buildStep ctxCos5 5000 7 [] (fun _ => F.pinf) true
        { permutationIdx := 0, rndCtr := 0 } ∧
    BPAM.swapOuterIter ctxCos5 15000 7 swStartCos5 =
      BPAM.swapOuterIter ctxCos5 15000 7
        { swStartCos5 with samp := { swStartCos5.samp with permutationIdx := 0 } } := by
  have h1 := C9_permutation_walk ctxCos5 { permutationIdx := 2, rndCtr := 0 } 5
    (by decide) (by decide)
  have h2 := C9_permutation_walk ctxCos5 { permutationIdx := 0, rndCtr := 0 } 3
    (by decide) (by decide)
  exact ⟨h1.1 (by decide), (h2.2.1 (by decide)).1, (h2.2.1 (by decide)).2 1 (by decide),
    h1.2.2.1 5000 7 [] (fun _ => F.pinf) true,
    h1.2.2.2 15000 7 swStartCos5⟩

/-- C4 amended: one SWAP outer iteration replaces exactly slot
`k* = choice % K` of the medoid list with `i* = choice / K`; when the
chosen candidate `i*` is not already a sitting medoid, the resulting
medoid set is duplicate-free (given it was before).  The engine does not
enforce the proviso — the cosine-loss run of the counterexample picks a
sitting medoid. -/
theorem C4_amended (c : BPAM.Ctx) (pcf fuel : ℕ) (st : BPAM.SwSt)
    (hnd : st.M.Nodup)
    (hfresh : (BPAM.swapChoice c pcf fuel st) / c.p.nMedoids ∉ st.M) :
    (BPAM.swapOuterIter c pcf fuel st).M =
      st.M.set ((BPAM.swapChoice c pcf fuel st) % c.p.nMedoids)
               ((BPAM.swapChoice c pcf fuel st) / c.p.nMedoids) ∧
    (BPAM.swapOuterIter c pcf fuel st).M.Nodup := by
  refine ⟨rfl, ?_⟩
  exact List.Nodup.set hnd hfresh

/-- C4 amended, witness: on the `dataSw4` run the first SWAP iteration
chooses candidate `i* = 2 ∉ M = [1, 0]` for slot 0, and the new medoid
set `[2, 0]` is duplicate-free. -/
theorem C4_amended_witness :
    swStartSw4.M.Nodup ∧
    (BPAM.swapChoice ctxSw4 (4 * 2 * 1000) 6 swStartSw4) / 2 ∉ swStartSw4.M ∧
    (BPAM.swapOuterIter ctxSw4 (4 * 2 * 1000) 6 swStartSw4).M =
      swStartSw4.M.set ((BPAM.swapChoice ctxSw4 (4 * 2 * 1000) 6 swStartSw4) % 2)
        ((BPAM.swapChoice ctxSw4 (4 * 2 * 1000) 6 swStartSw4) / 2) ∧
    (BPAM.swapOuterIter ctxSw4 (4 * 2 * 1000) 6 swStartSw4).M.Nodup := by
  have h := C4_amended ctxSw4 (4 * 2 * 1000) 6 swStartSw4 (by decide) (by decide)
  exact ⟨by decide, by decide, h.1, h.2⟩

/-- Case analysis of one `calcStep`. -/
theorem calcStep_cases (c : BPAM.Ctx) (M : List ℕ) (i : ℕ) (acc : F × F × ℕ)
    (k : ℕ) :
    (F.lt (c.d (M.getD k 0) i) acc.1 = true ∧
      BPAM.calcStep c M i acc k = (c.d (M.getD k 0) i, acc.1, k)) ∨
    (F.lt (c.d (M.getD k 0) i) acc.1 = false ∧
      F.lt (c.d (M.getD k 0) i) acc.2.1 = true ∧
      BPAM.calcStep c M i acc k = (acc.1, c.d (M.getD k 0) i, acc.2.2)) ∨
    (F.lt (c.d (M.getD k 0) i) acc.1 = false ∧
      F.lt (c.d (M.getD k 0) i) acc.2.1 = false ∧
      BPAM.calcStep c M i acc k = acc) := by
  simp only [BPAM.calcStep]
  by_cases h1 : F.lt (c.d (M.getD k 0) i) acc.1 = true
  · exact Or.inl ⟨h1, by rw [if_pos h1]⟩
  · have h1' : F.lt (c.d (M.getD k 0) i) acc.1 = false := by
      simpa using h1
    by_cases h2 : F.lt (c.d (M.getD k 0) i) acc.2.1 = true
    · exact Or.inr (Or.inl ⟨h1', h2, by rw [if_neg h1, if_pos h2]⟩)
    · have h2' : F.lt (c.d (M.getD k 0) i) acc.2.1 = false := by
        simpa using h2
      exact Or.inr (Or.inr ⟨h1', h2', by rw [if_neg h1, if_neg h2]⟩)

/-- The first component of the `calcStep` fold follows exactly the
`arma::min` scan recurrence. -/
theorem calc_foldl_fst (c : BPAM.Ctx) (M : List ℕ) (i : ℕ) (l : List ℕ) :
    ∀ (acc : F × F × ℕ),
      (l.foldl (BPAM.calcStep c M i) acc).1 =
        l.foldl (fun a k => if F.lt (c.d (M.getD k 0) i) a
          then c.d (M.getD k 0) i else a) acc.1 := by
  induction l with
  | nil => intro acc; rfl
  | cons k l ih =>
    intro acc
    simp only [List.foldl_cons]
    rw [ih]
    congr 1
    rcases calcStep_cases c M i acc k with ⟨h1, he⟩ | ⟨h1, h2, he⟩ | ⟨h1, h2, he⟩
    · rw [he, if_pos h1]
    · rw [he, if_neg (by rw [h1]; simp)]
    · rw [he, if_neg (by rw [h1]; simp)]

/-- Invariant of the `calcStep` fold: the accumulator either records a slot
below `len` realising its best value, or is still the untouched initial
pair of `+∞` entries. -/
theorem calc_foldl_inv (c : BPAM.Ctx) (M : List ℕ) (i len : ℕ) (l : List ℕ)
    (hl : ∀ k ∈ l, k < len) :
    ∀ (acc : F × F × ℕ),
      ((c.d (M.getD acc.2.2 0) i = acc.1 ∧ acc.2.2 < len) ∨
        (acc.1 = F.pinf ∧ acc.2.1 = F.pinf)) →
      ((c.d (M.getD (l.foldl (BPAM.calcStep c M i) acc).2.2 0) i =
          (l.foldl (BPAM.calcStep c M i) acc).1 ∧
        (l.foldl (BPAM.calcStep c M i) acc).2.2 < len) ∨
       ((l.foldl (BPAM.calcStep c M i) acc).1 = F.pinf ∧
        (l.foldl (BPAM.calcStep c M i) acc).2.1 = F.pinf)) := by
  induction l with
  | nil => intro acc h; exact h
  | cons k l ih =>
    intro acc h
    have hk : k < len := hl k (by simp)
    have hl' : ∀ k ∈ l, k < len := fun k hk => hl k (by simp [hk])
    simp only [List.foldl_cons]
    refine ih hl' _ ?_
    rcases calcStep_cases c M i acc k with ⟨h1, he⟩ | ⟨h1, h2, he⟩ | ⟨h1, h2, he⟩
    · rw [he]
      exact Or.inl ⟨rfl, hk⟩
    · rcases h with ⟨ha, hb⟩ | ⟨ha, hb⟩
      · rw [he]
        exact Or.inl ⟨ha, hb⟩
      · rw [ha] at h1
        rw [hb] at h2
        rw [h2] at h1
        cases h1
    · rw [he]
      exact h

/-- Folding the `arma::min` scan step from a finite start over finitely
valued entries stays finite. -/
theorem minfold_fin (f : ℕ → F) :
    ∀ (l : List ℕ), (∀ k ∈ l, ∃ q, f k = F.fin q) → ∀ (q0 : Q),
      ∃ q, l.foldl (fun acc j => if F.lt (f j) acc then f j else acc)
        (F.fin q0) = F.fin q := by
  intro l
  induction l with
  | nil => exact fun _ q0 => ⟨q0, rfl⟩
  | cons k l ih =>
    intro h q0
    obtain ⟨qk, hk⟩ := h k (by simp)
    simp only [List.foldl_cons]
    by_cases hc : F.lt (f k) (F.fin q0) = true
    · rw [if_pos hc, hk]
      exact ih (fun a ha => h a (by simp [ha])) qk
    · rw [if_neg hc]
      exact ih (fun a ha => h a (by simp [ha])) q0

/-- `arma::min` over at least one finitely valued entry is finite. -/
theorem minOver_fin (len : ℕ) (f : ℕ → F) (hlen : 1 ≤ len)
    (hf : ∀ k, ∃ q, f k = F.fin q) : ∃ q, F.minOver len f = F.fin q := by
  obtain ⟨m, rfl⟩ : ∃ m, len = m + 1 :=
    ⟨len - 1, (Nat.succ_pred_eq_of_pos hlen).symm⟩
  unfold F.minOver
  rw [List.range_succ_eq_map]
  simp only [List.foldl_cons]
  obtain ⟨q0, h0⟩ := hf 0
  have hstep : (if F.lt (f 0) F.pinf then f 0 else F.pinf) = F.fin q0 := by
    rw [h0]
    rfl
  rw [hstep]
  exact minfold_fin f _ (fun a _ => hf a) q0

/-- Correctness of `calcBestDistancesSwap` in one point `i`: with at least
one medoid slot and finite distances, the recorded assignment is a valid
slot index whose distance realises the minimum over all slots. -/
theorem calc_correct (c : BPAM.Ctx) (M : List ℕ) (A0 : ℕ → ℕ) (i : ℕ)
    (hM : 1 ≤ M.length)
    (hfin : ∀ k, ∃ q, c.d (M.getD k 0) i = F.fin q) :
    ((BPAM.calcBestDistancesSwap c M A0).2.2 i < M.length) ∧
    c.d (M.getD ((BPAM.calcBestDistancesSwap c M A0).2.2 i) 0) i =
      F.minOver M.length (fun k => c.d (M.getD k 0) i) := by
  have hfst : ((List.range M.length).foldl (BPAM.calcStep c M i)
        (F.pinf, F.pinf, A0 i)).1
      = F.minOver M.length (fun k => c.d (M.getD k 0) i) :=
    calc_foldl_fst c M i (List.range M.length) (F.pinf, F.pinf, A0 i)
  have hinv := calc_foldl_inv c M i M.length (List.range M.length)
    (fun a ha => List.mem_range.mp ha) (F.pinf, F.pinf, A0 i)
    (Or.inr ⟨rfl, rfl⟩)
  obtain ⟨qm, hq⟩ := minOver_fin M.length (fun k => c.d (M.getD k 0) i) hM hfin
  rcases hinv with ⟨hd, hlt⟩ | ⟨hp, _⟩
  · exact ⟨hlt, hd.trans hfst⟩
  · rw [hfst, hq] at hp
    cases hp

/-- Every SWAP outer iteration ends by recomputing the assignments against
the updated medoid list: the resulting `A` is a `calcBestDistancesSwap`
assignment for the resulting `M`. -/
theorem swapOuterIter_A (c : BPAM.Ctx) (pcf fuel : ℕ) (st : BPAM.SwSt) :
    ∃ A0, (BPAM.swapOuterIter c pcf fuel st).A =
      (BPAM.calcBestDistancesSwap c (BPAM.swapOuterIter c pcf fuel st).M A0).2.2 :=
  ⟨_, rfl⟩

/-- A SWAP outer iteration overwrites one slot of the medoid list in
place, preserving its length. -/
theorem swapOuterIter_len (c : BPAM.Ctx) (pcf fuel : ℕ) (st : BPAM.SwSt) :
    (BPAM.swapOuterIter c pcf fuel st).M.length = st.M.length := by
  obtain ⟨a, b, hab⟩ : ∃ a b, (BPAM.swapOuterIter c pcf fuel st).M = st.M.set a b :=
    ⟨_, _, rfl⟩
  rw [hab]
  exact List.length_set st.M a b

/-- The SWAP outer loop preserves the medoid-list length, and after it
stops the assignment vector is a `calcBestDistancesSwap` assignment for
the final medoid list (provided it enters with that shape, as it does
after at least one iteration). -/
theorem swapLoop_pres (c : BPAM.Ctx) (pcf innerFuel L : ℕ) :
    ∀ (fuel : ℕ) (st : BPAM.SwSt),
      ((∃ A0, st.A = (BPAM.calcBestDistancesSwap c st.M A0).2.2) ∧
        st.M.length = L) →
      ((∃ A0, (BPAM.swapLoop c pcf innerFuel fuel st).A =
          (BPAM.calcBestDistancesSwap c
            (BPAM.swapLoop c pcf innerFuel fuel st).M A0).2.2) ∧
        (BPAM.swapLoop c pcf innerFuel fuel st).M.length = L) := by
  intro fuel
  induction fuel with
  | zero => exact fun st h => h
  | succ fuel ih =>
    intro st h
    by_cases hs : st.swapPerformed = true
    · have hred : BPAM.swapLoop c pcf innerFuel (fuel + 1) st
          = BPAM.swapLoop c pcf innerFuel fuel (BPAM.swapOuterIter c pcf innerFuel st) := by
        simp [BPAM.swapLoop, hs]
      rw [hred]
      exact ih _ ⟨swapOuterIter_A c pcf innerFuel st,
        (swapOuterIter_len c pcf innerFuel st).trans h.2⟩
    · have hred : BPAM.swapLoop c pcf innerFuel (fuel + 1) st = st := by
        simp [BPAM.swapLoop, hs]
      rw [hred]
      exact h

/-- `getD` on a mapped index range evaluates the mapped function. -/
theorem getD_map_range (f : ℕ → ℕ) (n i : ℕ) (hi : i < n) :
    ((List.range n).map f).getD i 0 = f i := by
  simp [List.getD_eq_getElem?_getD, List.getElem?_map, List.getElem?_range hi]

/-- One BUILD medoid step appends exactly one index to the medoid list. -/
theorem buildStep_fst_len (c : BPAM.Ctx) (pcf fuel : ℕ) (M : List ℕ)
    (bestD : ℕ → F) (ua : Bool) (samp : BPAM.Samp) :
    ((BPAM.buildStep c pcf fuel M bestD ua samp).1).length = M.length + 1 := by
  show (M ++ [_]).length = M.length + 1
  simp

/-- The BUILD fold grows the medoid list by one per processed index. -/
theorem build_foldl_len (c : BPAM.Ctx) (pcf fuel : ℕ) :
    ∀ (l : List ℕ) (M : List ℕ) (bestD : ℕ → F) (samp : BPAM.Samp),
      ((l.foldl (fun acc k =>
          let (M, bestD, samp) := acc
          let (M', bestD', st') := BPAM.buildStep c pcf fuel M bestD (k = 0) samp
          (M', bestD', st'.samp)) (M, bestD, samp)).1).length
        = M.length + l.length := by
  intro l
  induction l with
  | nil => intro M bD sm; simp
  | cons k l ih =>
    intro M bD sm
    simp only [List.foldl_cons, List.length_cons]
    have h2 := ih (BPAM.buildStep c pcf fuel M bD (decide (k = 0)) sm).1
      (BPAM.buildStep c pcf fuel M bD (decide (k = 0)) sm).2.1
      (BPAM.buildStep c pcf fuel M bD (decide (k = 0)) sm).2.2.samp
    rw [buildStep_fst_len] at h2
    have h3 : M.length + 1 + l.length = M.length + (l.length + 1) := by omega
    rw [h3] at h2
    exact h2

/-- `BanditPAM::build` returns exactly `nMedoids` medoid indices. -/
theorem build_length (c : BPAM.Ctx) (fuel : ℕ) (samp : BPAM.Samp) :
    ((BPAM.build c fuel samp).1).length = c.p.nMedoids := by
  have h := build_foldl_len c (c.p.buildConfidence * c.n) fuel
    (List.range c.p.nMedoids) [] (fun _ => F.pinf) samp
  simpa [BPAM.build] using h

/-- C2 (amended): after `fit` with the BanditPAM algorithm — at least one
medoid requested, at least one SWAP iteration allowed, and every loss value
finite — `labels` has one entry per point and each entry is the index
(within `0..k-1`) of a closest final medoid: the distance to the labelled
medoid equals the minimum over the final medoid list.  (The naive path
never writes `labels` — see `C2_counterexample` — so the spec's sentence
holds only for the BanditPAM algorithm.) -/
theorem C2_amended (c : BPAM.Ctx) (innerFuel i : ℕ)
    (hK : 1 ≤ c.p.nMedoids) (hIter : 1 ≤ c.p.maxIter) (hi : i < c.n)
    (hfin : ∀ a b, ∃ q, c.d a b = F.fin q) :
    (BPAM.fitBanditPAM c innerFuel).labels.length = c.n ∧
    (BPAM.fitBanditPAM c innerFuel).medoidIndicesFinal.length = c.p.nMedoids ∧
    (BPAM.fitBanditPAM c innerFuel).labels.getD i 0 < c.p.nMedoids ∧
    c.d ((BPAM.fitBanditPAM c innerFuel).medoidIndicesFinal.getD
        ((BPAM.fitBanditPAM c innerFuel).labels.getD i 0) 0) i =
      F.minOver c.p.nMedoids
        (fun k => c.d ((BPAM.fitBanditPAM c innerFuel).medoidIndicesFinal.getD k 0) i) := by
  obtain ⟨m, hm⟩ : ∃ m, c.p.maxIter = m + 1 :=
    ⟨c.p.maxIter - 1, (Nat.succ_pred_eq_of_pos hIter).symm⟩
  have key : ∀ (sw : BPAM.SwSt),
      ((∃ A0, sw.A = (BPAM.calcBestDistancesSwap c sw.M A0).2.2) ∧
        sw.M.length = c.p.nMedoids) →
      ((List.range c.n).map sw.A).length = c.n ∧
      sw.M.length = c.p.nMedoids ∧
      ((List.range c.n).map sw.A).getD i 0 < c.p.nMedoids ∧
      c.d (sw.M.getD (((List.range c.n).map sw.A).getD i 0) 0) i =
        F.minOver c.p.nMedoids (fun k => c.d (sw.M.getD k 0) i) := by
    rintro sw ⟨⟨A0, hA⟩, hlen⟩
    have hM1 : 1 ≤ sw.M.length := hlen ▸ hK
    have hc := calc_correct c sw.M A0 i hM1 (fun k => hfin _ _)
    refine ⟨by simp, hlen, ?_, ?_⟩
    · rw [getD_map_range sw.A c.n i hi, hA]
      exact hlen ▸ hc.1
    · rw [getD_map_range sw.A c.n i hi, hA]
      exact hlen ▸ hc.2
  have hP : ∀ (M0 : List ℕ) (samp : BPAM.Samp), M0.length = c.p.nMedoids →
      (∃ A0, (BPAM.swap c innerFuel M0 samp 0).A =
        (BPAM.calcBestDistancesSwap c (BPAM.swap c innerFuel M0 samp 0).M A0).2.2) ∧
      (BPAM.swap c innerFuel M0 samp 0).M.length = c.p.nMedoids := by
    intro M0 samp hM0
    have h0 : BPAM.swap c innerFuel M0 samp 0
        = BPAM.swapLoop c (c.n * c.p.nMedoids * c.p.swapConfidence) innerFuel
            c.p.maxIter
            { M := M0, A := fun _ => 0, bestD := fun _ => F.fin (Q.ofNat 0),
              secondD := fun _ => F.fin (Q.ofNat 0), steps := 0,
              swapPerformed := true, samp := samp, iters := 0 } := rfl
    rw [h0, hm]
    have hstep : BPAM.swapLoop c (c.n * c.p.nMedoids * c.p.swapConfidence)
          innerFuel (m + 1)
          { M := M0, A := fun _ => 0, bestD := fun _ => F.fin (Q.ofNat 0),
            secondD := fun _ => F.fin (Q.ofNat 0), steps := 0,
            swapPerformed := true, samp := samp, iters := 0 }
        = BPAM.swapLoop c (c.n * c.p.nMedoids * c.p.swapConfidence) innerFuel m
            (BPAM.swapOuterIter c (c.n * c.p.nMedoids * c.p.swapConfidence)
              innerFuel
              { M := M0, A := fun _ => 0, bestD := fun _ => F.fin (Q.ofNat 0),
                secondD := fun _ => F.fin (Q.ofNat 0), steps := 0,
                swapPerformed := true, samp := samp, iters := 0 }) := by
      simp [BPAM.swapLoop]
    rw [hstep]
    exact swapLoop_pres c (c.n * c.p.nMedoids * c.p.swapConfidence) innerFuel
      c.p.nMedoids m _
      ⟨swapOuterIter_A c (c.n * c.p.nMedoids * c.p.swapConfidence) innerFuel _,
        (swapOuterIter_len c (c.n * c.p.nMedoids * c.p.swapConfidence)
          innerFuel _).trans hM0⟩
  exact key
    (BPAM.swap c innerFuel
      (BPAM.build c innerFuel { permutationIdx := 0, rndCtr := 0 }).1
      (BPAM.build c innerFuel { permutationIdx := 0, rndCtr := 0 }).2.2 0)
    (hP (BPAM.build c innerFuel { permutationIdx := 0, rndCtr := 0 }).1
      (BPAM.build c innerFuel { permutationIdx := 0, rndCtr := 0 }).2.2
      (build_length c innerFuel { permutationIdx := 0, rndCtr := 0 }))

/-- Witness for `C2_amended`: the BanditPAM fit on the two coincident
points, checked at point `0`. -/
theorem C2_amended_witness :
    (1 ≤ ctxId2.p.nMedoids) ∧ (1 ≤ ctxId2.p.maxIter) ∧ (0 < ctxId2.n) ∧
    (∀ a b, ∃ q, ctxId2.d a b = F.fin q) ∧
    ((BPAM.fitBanditPAM ctxId2 4).labels.length = ctxId2.n ∧
     (BPAM.fitBanditPAM ctxId2 4).medoidIndicesFinal.length = ctxId2.p.nMedoids ∧
     (BPAM.fitBanditPAM ctxId2 4).labels.getD 0 0 < ctxId2.p.nMedoids ∧
     ctxId2.d ((BPAM.fitBanditPAM ctxId2 4).medoidIndicesFinal.getD
        ((BPAM.fitBanditPAM ctxId2 4).labels.getD 0 0) 0) 0 =
       F.minOver ctxId2.p.nMedoids
         (fun k => ctxId2.d
           ((BPAM.fitBanditPAM ctxId2 4).medoidIndicesFinal.getD k 0) 0)) :=
  ⟨by decide, by decide, by decide, fun a b => ⟨_, rfl⟩,
   C2_amended ctxId2 4 0 (by decide) (by decide) (by decide)
     (fun a b => ⟨_, rfl⟩)⟩

/-- The promotion test `(T + batchSize ≥ N) != exact` is false on a
non-promoted arm only when the batched count stays below `N`. -/
theorem ce_false_bound (n T B : ℕ) (e : Bool) (hex : e = false)
    (hce : (decide (n ≤ T + B) != e) = false) : T + B < n := by
  subst hex
  simp at hce
  omega

/-- When the promotion test fires on an arm whose exact flag would imply
`n ≤ T`, the arm is in fact non-exact and due: `T + batchSize ≥ n`. -/
theorem ce_true_exact_false (n T B : ℕ) (e : Bool)
    (h6 : e = true → n ≤ T)
    (hce : (decide (n ≤ T + B) != e) = true) : e = false ∧ n ≤ T + B := by
  cases e
  · refine ⟨rfl, ?_⟩
    simpa using hce
  · exfalso
    have h7 := h6 rfl
    simp at hce
    omega

/-- Under the permutation walk with a full-length permutation, drawing a
batch of size `n` always returns the whole permutation (the cursor resets
to `0` whenever it is nonzero, and an unmoved cursor reads the same
slice). -/
theorem getRefs_full (c : BPAM.Ctx) (s : BPAM.Samp)
    (hperm : c.p.usePerm = true) (hlen : c.perm.length = c.n) (hn : 1 ≤ c.n) :
    (BPAM.getRefs c s c.n).1 = c.perm := by
  unfold BPAM.getRefs
  rw [hperm]
  simp only [if_true]
  by_cases h : c.n ≤ s.permutationIdx + c.n - 1
  · simp only [if_pos h]
    simp [List.take_of_length_le, hlen.le]
  · simp only [if_neg h]
    have h0 : s.permutationIdx = 0 := by omega
    rw [h0]
    simp [List.take_of_length_le, hlen.le]

/-- In the exact branch (`exact = n > 0`), `buildTarget` is the mean of
the per-reference samples over the whole permutation. -/
theorem buildTarget_exact (c : BPAM.Ctx) (bestD : ℕ → F) (ua : Bool)
    (hperm : c.p.usePerm = true) (hlen : c.perm.length = c.n) (hn : 1 ≤ c.n)
    (s : BPAM.Samp) (a : ℕ) :
    ((BPAM.buildTarget c s bestD ua c.n).1) a
      = F.divNat
          (F.lsum (c.perm.map (fun r => BPAM.buildSample c bestD ua a r)))
          c.n := by
  have hn2 : (if 0 < c.n then c.n else c.p.batchSize) = c.n := if_pos hn
  simp only [BPAM.buildTarget, hn2, getRefs_full c s hperm hlen hn]

/-- Per-arm invariant of the BUILD confidence-bound loop: a non-promoted
arm has strictly fewer than `n` samples, every arm strictly fewer than
`2n`; candidate arms are never exact; an exact arm has at least `n`
samples and its running mean is the exact mean over the whole reference
permutation. -/
def buildArmInv (c : BPAM.Ctx) (bestD : ℕ → F) (ua : Bool) (a : ℕ)
    (st : BPAM.BSt) : Prop :=
  (st.exactMask a = false → st.numSamples a < c.n) ∧
  (st.numSamples a < c.n + c.n) ∧
  (st.candidates a = true → st.exactMask a = false) ∧
  (st.exactMask a = true → c.n ≤ st.numSamples a ∧
    st.estimates a = F.divNat
      (F.lsum (c.perm.map (fun r => BPAM.buildSample c bestD ua a r))) c.n)

/-- Per-arm invariant of the SWAP confidence-bound loop: a non-promoted
arm has strictly fewer than `n` samples, every arm strictly fewer than
`2n`; candidate arms are never exact; an exact arm has at least `n`
samples. -/
def swapArmInv (c : BPAM.Ctx) (a : ℕ) (st : BPAM.SwBSt) : Prop :=
  (st.exactMask a = false → st.numSamples a < c.n) ∧
  (st.numSamples a < c.n + c.n) ∧
  (st.candidates a = true → st.exactMask a = false) ∧
  (st.exactMask a = true → c.n ≤ st.numSamples a)

/-- The exact-promotion branch of the BUILD loop body preserves the
per-arm invariant: a promoted arm gains exactly `n` samples on top of the
fewer-than-`n` it had, its exact flag is set, it leaves the candidate set,
and its estimate becomes the exact mean. -/
theorem buildPromote_arm (c : BPAM.Ctx) (bestD : ℕ → F) (ua : Bool) (a : ℕ)
    (st : BPAM.BSt) (exT : List ℕ) (res : ℕ → F) (samp' : BPAM.Samp)
    (hmemA : a ∈ exT →
      (decide (c.n ≤ st.numSamples a + c.p.batchSize) != st.exactMask a) = true)
    (hres : res a = F.divNat
      (F.lsum (c.perm.map (fun r => BPAM.buildSample c bestD ua a r))) c.n)
    (h : buildArmInv c bestD ua a st) :
    buildArmInv c bestD ua a
      { st with
        estimates := BPAM.upd exT res st.estimates
        ucbs := BPAM.upd exT res st.ucbs
        lcbs := BPAM.upd exT res st.lcbs
        exactMask := BPAM.upd exT (fun _ => true) st.exactMask
        numSamples := fun x => if x ∈ exT then st.numSamples x + c.n
          else st.numSamples x
        candidates := BPAM.upd exT (fun _ => false) st.candidates
        samp := samp' } := by
  obtain ⟨h1, h2, h3, h4⟩ := h
  simp only [buildArmInv, BPAM.upd]
  by_cases hm : a ∈ exT
  · obtain ⟨hex, hdue⟩ :=
      ce_true_exact_false c.n (st.numSamples a) c.p.batchSize (st.exactMask a)
        (fun he => (h4 he).1) (hmemA hm)
    have hT : st.numSamples a < c.n := h1 hex
    simp only [if_pos hm]
    refine ⟨fun hx => by simp at hx, by omega, fun hx => by simp at hx,
      fun _ => ⟨Nat.le_add_left c.n _, hres⟩⟩
  · simp only [if_neg hm]
    exact ⟨h1, h2, h3, h4⟩

/-- The batched-sampling branch of the BUILD loop body preserves the
per-arm invariant, provided every batched candidate would stay below `n`
samples (which the preceding promotion step guarantees). -/
theorem buildBatch_arm (c : BPAM.Ctx) (pcf : ℕ) (bestD : ℕ → F) (ua : Bool)
    (a : ℕ) (st1 : BPAM.BSt)
    (hpre : a < c.n → st1.candidates a = true →
      st1.numSamples a + c.p.batchSize < c.n)
    (h : buildArmInv c bestD ua a st1) :
    buildArmInv c bestD ua a (BPAM.buildBatchUpdate c pcf bestD ua st1) := by
  obtain ⟨h1, h2, h3, h4⟩ := h
  simp only [buildArmInv, BPAM.buildBatchUpdate, BPAM.upd]
  by_cases hm : a ∈ BPAM.targetsOf c.n st1.candidates
  · obtain ⟨ha, hca⟩ := mem_targetsOf.mp hm
    have hex : st1.exactMask a = false := h3 hca
    have hTB : st1.numSamples a + c.p.batchSize < c.n := hpre ha hca
    simp only [if_pos hm]
    refine ⟨fun _ => hTB, by omega, fun _ => hex, fun hx => ?_⟩
    rw [hex] at hx
    cases hx
  · simp only [if_neg hm]
    refine ⟨h1, h2, ?_, h4⟩
    intro hc
    have hc2 := (Bool.and_eq_true _ _).mp hc
    simpa using hc2.2

/-- One full pass of the BUILD confidence-bound loop body preserves the
per-arm invariant. -/
theorem buildPass_arm (c : BPAM.Ctx) (pcf : ℕ) (bestD : ℕ → F) (ua : Bool)
    (a : ℕ) (st : BPAM.BSt)
    (hn : 1 ≤ c.n) (hperm : c.p.usePerm = true) (hlen : c.perm.length = c.n)
    (h : buildArmInv c bestD ua a st) :
    buildArmInv c bestD ua a (BPAM.buildPass c pcf bestD ua st).1 := by
  have hres := buildTarget_exact c bestD ua hperm hlen hn st.samp a
  simp only [BPAM.buildPass]
  by_cases hc1 : 0 < (BPAM.targetsOf c.n (fun x =>
      (decide (c.n ≤ st.numSamples x + c.p.batchSize) != st.exactMask x))).length
  · simp only [if_pos hc1]
    have hR := buildPromote_arm c bestD ua a st
      (BPAM.targetsOf c.n (fun x =>
        (decide (c.n ≤ st.numSamples x + c.p.batchSize) != st.exactMask x)))
      ((BPAM.buildTarget c st.samp bestD ua c.n).1)
      ((BPAM.buildTarget c st.samp bestD ua c.n).2)
      (fun hmm => (mem_targetsOf.mp hmm).2) hres h
    split
    · exact hR
    · refine buildBatch_arm c pcf bestD ua a _ ?_ hR
      intro ha hca
      by_cases hm : a ∈ BPAM.targetsOf c.n (fun x =>
          (decide (c.n ≤ st.numSamples x + c.p.batchSize) != st.exactMask x))
      · exfalso
        have : BPAM.upd (BPAM.targetsOf c.n (fun x =>
            (decide (c.n ≤ st.numSamples x + c.p.batchSize) != st.exactMask x)))
            (fun _ => false) st.candidates a = true := hca
        rw [BPAM.upd, if_pos hm] at this
        cases this
      · have hce : (decide (c.n ≤ st.numSamples a + c.p.batchSize)
            != st.exactMask a) = false := by
          by_contra hx
          exact hm (mem_targetsOf.mpr ⟨ha, by simpa using hx⟩)
        have hcand : st.candidates a = true := by
          have hca2 : BPAM.upd (BPAM.targetsOf c.n (fun x =>
              (decide (c.n ≤ st.numSamples x + c.p.batchSize) != st.exactMask x)))
              (fun _ => false) st.candidates a = true := hca
          rwa [BPAM.upd, if_neg hm] at hca2
        have hex := h.2.2.1 hcand
        have hT := ce_false_bound c.n (st.numSamples a) c.p.batchSize
          (st.exactMask a) hex hce
        simpa [if_neg hm] using hT
  · simp only [if_neg hc1]
    split
    · exact h
    · refine buildBatch_arm c pcf bestD ua a st ?_ h
      intro ha hca
      have hnot : ¬ (a ∈ BPAM.targetsOf c.n (fun x =>
          (decide (c.n ≤ st.numSamples x + c.p.batchSize) != st.exactMask x))) := by
        intro hmem
        exact hc1 (List.length_pos_of_mem hmem)
      have hce : (decide (c.n ≤ st.numSamples a + c.p.batchSize)
          != st.exactMask a) = false := by
        by_contra hx
        exact hnot (mem_targetsOf.mpr ⟨ha, by simpa using hx⟩)
      have hex := h.2.2.1 hca
      exact ce_false_bound c.n (st.numSamples a) c.p.batchSize
        (st.exactMask a) hex hce

/-- The BUILD confidence-bound loop preserves the per-arm invariant for
every fuel. -/
theorem buildInner_arm (c : BPAM.Ctx) (pcf : ℕ) (bestD : ℕ → F) (ua : Bool)
    (a : ℕ) (hn : 1 ≤ c.n) (hperm : c.p.usePerm = true)
    (hlen : c.perm.length = c.n) :
    ∀ (fuel : ℕ) (st : BPAM.BSt), buildArmInv c bestD ua a st →
      buildArmInv c bestD ua a (BPAM.buildInner c pcf bestD ua fuel st) := by
  intro fuel
  induction fuel with
  | zero => exact fun st h => h
  | succ fuel ih =>
    intro st h
    simp only [BPAM.buildInner]
    split
    · rcases hp : BPAM.buildPass c pcf bestD ua st with ⟨st', flag⟩
      have hst' : buildArmInv c bestD ua a st' := by
        have h2 := buildPass_arm c pcf bestD ua a st hn hperm hlen h
        rwa [hp] at h2
      cases flag
      · exact hst'
      · exact ih st' hst'
    · exact h

/-- The exact-promotion branch of the SWAP loop body preserves the
per-arm invariant (the re-elected candidate mask carries an explicit
`&& !exact` factor). -/
theorem swapPromote_arm (c : BPAM.Ctx) (a : ℕ) (st0 : BPAM.SwBSt)
    (exT : List ℕ) (res : ℕ → F) (samp' : BPAM.Samp) (w : ℕ → Bool)
    (hmemA : a ∈ exT →
      (decide (c.n ≤ st0.numSamples a + c.p.batchSize) != st0.exactMask a) = true)
    (h : swapArmInv c a st0) :
    swapArmInv c a
      { st0 with
        estimates := BPAM.upd exT res st0.estimates
        ucbs := BPAM.upd exT res st0.ucbs
        lcbs := BPAM.upd exT res st0.lcbs
        exactMask := BPAM.upd exT (fun _ => true) st0.exactMask
        numSamples := fun x => if x ∈ exT then st0.numSamples x + c.n
          else st0.numSamples x
        candidates := fun x => w x && !(BPAM.upd exT (fun _ => true) st0.exactMask x)
        samp := samp' } := by
  obtain ⟨h1, h2, h3, h4⟩ := h
  simp only [swapArmInv, BPAM.upd]
  by_cases hm : a ∈ exT
  · obtain ⟨hex, hdue⟩ :=
      ce_true_exact_false c.n (st0.numSamples a) c.p.batchSize (st0.exactMask a)
        h4 (hmemA hm)
    have hT : st0.numSamples a < c.n := h1 hex
    simp only [if_pos hm]
    refine ⟨fun hx => by simp at hx, by omega, fun hx => by simp at hx,
      fun _ => Nat.le_add_left c.n _⟩
  · simp only [if_neg hm]
    refine ⟨h1, h2, ?_, h4⟩
    intro hc
    have hc2 := (Bool.and_eq_true _ _).mp hc
    simpa using hc2.2

/-- The batched-sampling branch of the SWAP loop body preserves the
per-arm invariant, provided every batched candidate would stay below `n`
samples. -/
theorem swapBatch_arm (c : BPAM.Ctx) (pcf : ℕ) (a : ℕ) (st1 : BPAM.SwBSt)
    (hpre : a < c.p.nMedoids * c.n → st1.candidates a = true →
      st1.numSamples a + c.p.batchSize < c.n)
    (h : swapArmInv c a st1) :
    swapArmInv c a (BPAM.swapBatchUpdate c pcf st1) := by
  obtain ⟨h1, h2, h3, h4⟩ := h
  simp only [swapArmInv, BPAM.swapBatchUpdate, BPAM.upd]
  by_cases hm : a ∈ BPAM.targetsOf (c.p.nMedoids * c.n) st1.candidates
  · obtain ⟨ha, hca⟩ := mem_targetsOf.mp hm
    have hex : st1.exactMask a = false := h3 hca
    have hTB : st1.numSamples a + c.p.batchSize < c.n := hpre ha hca
    simp only [if_pos hm]
    refine ⟨fun _ => hTB, by omega, fun _ => hex, fun hx => ?_⟩
    rw [hex] at hx
    cases hx
  · simp only [if_neg hm]
    refine ⟨h1, h2, ?_, h4⟩
    intro hc
    have hc2 := (Bool.and_eq_true _ _).mp hc
    simpa using hc2.2

/-- One full pass of the SWAP confidence-bound loop body preserves the
per-arm invariant. -/
theorem swapPass_arm (c : BPAM.Ctx) (pcf : ℕ) (M : List ℕ) (a : ℕ)
    (st : BPAM.SwBSt) (h : swapArmInv c a st) :
    swapArmInv c a (BPAM.swapPass c pcf M st).1 := by
  simp only [BPAM.swapPass]
  by_cases hc1 : 0 < (BPAM.targetsOf (c.p.nMedoids * c.n) (fun x =>
      (decide (c.n ≤ st.numSamples x + c.p.batchSize) != st.exactMask x))).length
  · simp only [if_pos hc1]
    have hR := swapPromote_arm c a
      { st with bestD := (BPAM.calcBestDistancesSwap c M st.A).1
                secondD := (BPAM.calcBestDistancesSwap c M st.A).2.1
                A := (BPAM.calcBestDistancesSwap c M st.A).2.2 }
      (BPAM.targetsOf (c.p.nMedoids * c.n) (fun x =>
        (decide (c.n ≤ st.numSamples x + c.p.batchSize) != st.exactMask x)))
      ((BPAM.swapTarget c st.samp (BPAM.calcBestDistancesSwap c M st.A).1
        (BPAM.calcBestDistancesSwap c M st.A).2.1
        (BPAM.calcBestDistancesSwap c M st.A).2.2 c.n).1)
      ((BPAM.swapTarget c st.samp (BPAM.calcBestDistancesSwap c M st.A).1
        (BPAM.calcBestDistancesSwap c M st.A).2.1
        (BPAM.calcBestDistancesSwap c M st.A).2.2 c.n).2)
      (fun x => F.lt (BPAM.upd (BPAM.targetsOf (c.p.nMedoids * c.n) (fun y =>
          (decide (c.n ≤ st.numSamples y + c.p.batchSize) != st.exactMask y)))
          ((BPAM.swapTarget c st.samp (BPAM.calcBestDistancesSwap c M st.A).1
            (BPAM.calcBestDistancesSwap c M st.A).2.1
            (BPAM.calcBestDistancesSwap c M st.A).2.2 c.n).1) st.lcbs x)
        (F.minOver (c.p.nMedoids * c.n)
          (BPAM.upd (BPAM.targetsOf (c.p.nMedoids * c.n) (fun y =>
            (decide (c.n ≤ st.numSamples y + c.p.batchSize) != st.exactMask y)))
          ((BPAM.swapTarget c st.samp (BPAM.calcBestDistancesSwap c M st.A).1
            (BPAM.calcBestDistancesSwap c M st.A).2.1
            (BPAM.calcBestDistancesSwap c M st.A).2.2 c.n).1) st.ucbs)))
      (fun hm => (mem_targetsOf.mp hm).2) h
    split
    · exact hR
    · refine swapBatch_arm c pcf a _ ?_ hR
      intro ha hca
      have hand := (Bool.and_eq_true _ _).mp hca
      have hex' : BPAM.upd (BPAM.targetsOf (c.p.nMedoids * c.n) (fun x =>
          (decide (c.n ≤ st.numSamples x + c.p.batchSize) != st.exactMask x)))
          (fun _ => true) st.exactMask a = false := by
        simpa using hand.2
      have hm : ¬ (a ∈ BPAM.targetsOf (c.p.nMedoids * c.n) (fun x =>
          (decide (c.n ≤ st.numSamples x + c.p.batchSize) != st.exactMask x))) := by
        intro hm
        rw [BPAM.upd, if_pos hm] at hex'
        cases hex'
      have hex : st.exactMask a = false := by
        rwa [BPAM.upd, if_neg hm] at hex'
      have hce : (decide (c.n ≤ st.numSamples a + c.p.batchSize)
          != st.exactMask a) = false := by
        by_contra hx
        exact hm (mem_targetsOf.mpr ⟨ha, by simpa using hx⟩)
      have hT := ce_false_bound c.n (st.numSamples a) c.p.batchSize
        (st.exactMask a) hex hce
      simpa [if_neg hm] using hT
  · simp only [if_neg hc1]
    split
    · exact h
    · refine swapBatch_arm c pcf a _ ?_ h
      intro ha hca
      have hnot : ¬ (a ∈ BPAM.targetsOf (c.p.nMedoids * c.n) (fun x =>
          (decide (c.n ≤ st.numSamples x + c.p.batchSize) != st.exactMask x))) := by
        intro hmem
        exact hc1 (List.length_pos_of_mem hmem)
      have hce : (decide (c.n ≤ st.numSamples a + c.p.batchSize)
          != st.exactMask a) = false := by
        by_contra hx
        exact hnot (mem_targetsOf.mpr ⟨ha, by simpa using hx⟩)
      have hex := h.2.2.1 hca
      exact ce_false_bound c.n (st.numSamples a) c.p.batchSize
        (st.exactMask a) hex hce

/-- The SWAP confidence-bound loop preserves the per-arm invariant for
every fuel. -/
theorem swapInner_arm (c : BPAM.Ctx) (pcf : ℕ) (M : List ℕ) (a : ℕ) :
    ∀ (fuel : ℕ) (st : BPAM.SwBSt), swapArmInv c a st →
      swapArmInv c a (BPAM.swapInner c pcf M fuel st) := by
  intro fuel
  induction fuel with
  | zero => exact fun st h => h
  | succ fuel ih =>
    intro st h
    simp only [BPAM.swapInner]
    split
    · rcases hp : BPAM.swapPass c pcf M st with ⟨st', flag⟩
      have hst' : swapArmInv c a st' := by
        have h2 := swapPass_arm c pcf M a st h
        rwa [hp] at h2
      cases flag
      · exact hst'
      · exact ih st' hst'
    · exact h

/-- C5 (amended): throughout both confidence-bound loops every arm `a` of
a state satisfying the invariant keeps satisfying it — a non-promoted arm
has `T[a] < n` (so an arm with `T[a] ≥ n` has been promoted and its exact
flag is set), every arm has `T[a] < 2n` (not `T[a] ≤ n`: the exact
promotion executes `T_samples += N` on top of the batched count), and in
the BUILD loop the estimate of a promoted arm is the exact mean of its
rewards over the whole reference permutation. -/
theorem C5_amended (c : BPAM.Ctx) (pcf : ℕ) (bestD : ℕ → F) (ua : Bool)
    (M : List ℕ) (a fuel : ℕ) (st : BPAM.BSt) (sw : BPAM.SwBSt)
    (hn : 1 ≤ c.n) (hperm : c.p.usePerm = true) (hlen : c.perm.length = c.n)
    (hb : buildArmInv c bestD ua a st) (hs : swapArmInv c a sw) :
    buildArmInv c bestD ua a (BPAM.buildInner c pcf bestD ua fuel st) ∧
    swapArmInv c a (BPAM.swapInner c pcf M fuel sw) :=
  ⟨buildInner_arm c pcf bestD ua a hn hperm hlen fuel st hb,
   swapInner_arm c pcf M a fuel sw hs⟩

/-- The fresh BUILD arm state of a `ctxOvr3` medoid step (all counters
zero, everything a candidate). -/
def c5BuildSt0 : BPAM.BSt :=
  { estimates := fun _ => F.fin (Q.ofNat 0), lcbs := fun _ => F.fin (Q.ofNat 0),
    ucbs := fun _ => F.fin (Q.ofNat 0), sigma := fun _ => F.fin (Q.ofNat 0),
    numSamples := fun _ => 0, exactMask := fun _ => false,
    candidates := fun _ => true, samp := { permutationIdx := 0, rndCtr := 0 } }

/-- The fresh SWAP arm state of a `ctxOvr3` outer iteration. -/
def c5SwapSt0 : BPAM.SwBSt :=
  { estimates := fun _ => F.fin (Q.ofNat 0), lcbs := fun _ => F.fin (Q.ofNat 0),
    ucbs := fun _ => F.fin (Q.ofNat 0), sigma := fun _ => F.fin (Q.ofNat 0),
    numSamples := fun _ => 0, exactMask := fun _ => false,
    candidates := fun _ => true, bestD := fun _ => F.fin (Q.ofNat 0),
    secondD := fun _ => F.fin (Q.ofNat 0), A := fun _ => 0,
    samp := { permutationIdx := 0, rndCtr := 0 } }

/-- Witness for `C5_amended`: the `ctxOvr3` run (three points, batch 2),
arm `0`, two passes of fuel, from the fresh loop states. -/
theorem C5_amended_witness :
    (1 ≤ ctxOvr3.n) ∧ (ctxOvr3.p.usePerm = true) ∧
    (ctxOvr3.perm.length = ctxOvr3.n) ∧
    buildArmInv ctxOvr3 (fun _ => F.pinf) true 0 c5BuildSt0 ∧
    swapArmInv ctxOvr3 0 c5SwapSt0 ∧
    (buildArmInv ctxOvr3 (fun _ => F.pinf) true 0
      (BPAM.buildInner ctxOvr3 3000 (fun _ => F.pinf) true 2 c5BuildSt0) ∧
     swapArmInv ctxOvr3 0 (BPAM.swapInner ctxOvr3 3000 [0] 2 c5SwapSt0)) :=
  ⟨by decide, by decide, by decide,
   by unfold buildArmInv; decide, by unfold swapArmInv; decide,
   C5_amended ctxOvr3 3000 (fun _ => F.pinf) true [0] 0 2 c5BuildSt0 c5SwapSt0
     (by decide) (by decide) (by decide)
     (by unfold buildArmInv; decide) (by unfold swapArmInv; decide)⟩
